import Mathlib

/-!
# Pixi: sharpening and palette quantisation of an RGBA pixel buffer

A shallow embedding of the two pixel-buffer transforms of `src/app.js`
(`sharpenCanvas`, `quantizeImage`) and of the part of `processImage` that
chains them.

Modelling conventions.

* A JavaScript number is an exact rational (`ℚ`): every quantity the code
  computes is an integer byte, a sum of bytes, a quotient of two such sums or a
  polynomial in those, so `Infinity` and `NaN` are the only non-rational values
  that can appear, and both are represented explicitly (`Option`).
* A `Uint8ClampedArray` is a `List Nat`; a store into it converts the number
  with `toUint8Clamp` (ECMAScript `ToUint8Clamp`: clamp to [0,255], round to
  nearest, ties to even).
* `Math.random` is an injected stream of numbers in `[0,1)`; the functions that
  draw from it take the position of the next draw and return the new position.
* A thrown JavaScript exception is the `error` case of `Except JsError`.
-/

namespace Pixi

/-! ## Data model -/

/-- The exceptions the modelled code can raise. -/
inductive JsError where
  /-- Raised by `new Array(k)` for a negative `k`. -/
  | rangeError
  /-- Raised by a property or index access on `undefined`. -/
  | typeError
deriving DecidableEq, Repr

/-- An `[r, g, b]` array of JavaScript numbers. -/
abbrev Color := ℚ × ℚ × ℚ

/-- A centroid slot of the `centroids` array: `none` is `undefined`. -/
abbrev Slot := Option Color

/-- An `ImageData` object: dimensions and the flat RGBA byte array. -/
structure ImageData where
  width : Nat
  height : Nat
  data : List Nat
deriving DecidableEq, Repr

/-- The invariant of every host-made `ImageData`: `data` holds `width * height`
pixels of four bytes each. -/
def ImageData.WellFormed (img : ImageData) : Prop :=
  img.data.length = img.width * img.height * 4 ∧ ∀ v ∈ img.data, v ≤ 255

instance (img : ImageData) : Decidable img.WellFormed := by
  unfold ImageData.WellFormed; infer_instance

/-- Conversion of a number stored into a `Uint8ClampedArray` (ECMAScript
`ToUint8Clamp`): clamp to [0,255], then round to the nearest integer, a tie
going to the even neighbour. -/
def toUint8Clamp (x : ℚ) : Nat :=
  let clamped : ℚ := min (max x 0) 255
  let f : Int := ⌊clamped⌋
  if clamped < f + 1 / 2 then f.toNat
  else if (f : ℚ) + 1 / 2 < clamped then (f + 1).toNat
  else if f % 2 = 0 then f.toNat
  else (f + 1).toNat

/-- One result of `Math.random()`: a number in `[0,1)`. -/
structure Unit01 where
  val : ℚ
  nonneg : 0 ≤ val
  lt_one : val < 1

/-- The random source: the successive results of `Math.random()`. -/
abbrev RandomSource := Nat → Unit01

/-- The index `Math.floor(Math.random() * pixels.length)` computed from draw
number `pos` (lines 195 and 238). -/
def randomIndex (rnd : RandomSource) (pos len : Nat) : Nat :=
  (⌊(rnd pos).val * (len : ℚ)⌋).toNat

/-! ## sharpenCanvas (lines 136-172) -/

/-- The body of the channel loop (lines 160-166) for channel `c` of the pixel
at `idx` with neighbours at `up`, `down`, `left`, `right`: the value stored to
`data[idx + c]`.  A read outside `copy` yields `undefined`, the arithmetic then
yields `NaN`, which is stored as 0. -/
def sharpenValue (copy : List Nat) (amount : ℚ) (idx up down left right c : Nat) : Nat :=
  match copy[idx + c]?, copy[up + c]?, copy[down + c]?, copy[left + c]?, copy[right + c]? with
  | some v, some u, some d, some l, some r =>
    let val : ℚ := v
    let neighborAvg : ℚ := ((u : ℚ) + d + l + r) * (1 / 4)
    let diff : ℚ := val - neighborAvg
    toUint8Clamp (min 255 (max 0 (val + diff * amount * 4)))
  | _, _, _, _, _ => 0

/-- The body of the `x` loop (lines 150-168): the three channel stores for the
pixel `(x, y)`, reading from `copy` and writing into `data`. -/
def sharpenPixel (copy : List Nat) (w h : Nat) (amount : ℚ) (y : Nat)
    (data : List Nat) (x : Nat) : List Nat :=
  let idx := (y * w + x) * 4
  let up := ((max 0 ((y : Int) - 1)).toNat * w + x) * 4
  let down := ((min ((h : Int) - 1) ((y : Int) + 1)).toNat * w + x) * 4
  let left := (y * w + (max 0 ((x : Int) - 1)).toNat) * 4
  let right := (y * w + (min ((w : Int) - 1) ((x : Int) + 1)).toNat) * 4
  (List.range 3).foldl
    (fun d c => d.set (idx + c) (sharpenValue copy amount idx up down left right c)) data

/-- The body of the `y` loop (lines 149-169). -/
def sharpenRow (copy : List Nat) (w h : Nat) (amount : ℚ) (data : List Nat) (y : Nat) :
    List Nat :=
  (List.range w).foldl (sharpenPixel copy w h amount y) data

/-- The function `sharpenCanvas(ctx, w, h, amount)`; `ctx` is the canvas content, which
`getImageData(0, 0, w, h)` reads and `putImageData` writes back (the caller passes the
canvas dimensions as `w` and `h`). -/
def sharpenCanvas (ctx : ImageData) (w h : Nat) (amount : ℚ) : ImageData :=
  let data := ctx.data
  let copy := data
  { ctx with data := (List.range h).foldl (sharpenRow copy w h amount) data }

/-! ## quantizeImage (lines 176-270) -/

/-- Step 1 (lines 181-185): the `[r, g, b]` of every pixel whose alpha is at least 128,
in scan order. -/
def collectPixels : List Nat → List Color
  | r :: g :: b :: a :: rest =>
    if a < 128 then collectPixels rest
    else ((r : ℚ), (g : ℚ), (b : ℚ)) :: collectPixels rest
  | _ => []

/-- Step 2 (lines 193-196): `n` pushes of a randomly drawn pixel, starting at
draw `pos`. -/
def initCentroids (rnd : RandomSource) (pixels : List Color) : Nat → Nat → List Slot
  | 0, _ => []
  | n + 1, pos =>
    pixels[randomIndex rnd pos pixels.length]? :: initCentroids rnd pixels n (pos + 1)

/-- The squared Euclidean distance of lines 214 and 256. -/
def sqDist (p c : Color) : ℚ :=
  (p.1 - c.1) ^ 2 + (p.2.1 - c.2.1) ^ 2 + (p.2.2 - c.2.2) ^ 2

/-- The test `dist < minDist`, where `minDist = none` is `Infinity`. -/
def ltMinDist (dist : ℚ) : Option ℚ → Bool
  | none => true
  | some m => decide (dist < m)

/-- One pass of the loop body of lines 212-218 on the state `(minDist, closestIndex)`. -/
def closestStep (centroids : List Slot) (p : Color) (st : Option ℚ × Nat) (j : Nat) :
    Except JsError (Option ℚ × Nat) :=
  match centroids[j]? with
  | some (some c) =>
    let dist := sqDist p c
    if ltMinDist dist st.1 then .ok (some dist, j) else .ok st
  | _ => .error JsError.typeError

/-- Lines 207-219: the index of the nearest centroid of `p`. -/
def closestIndex (centroids : List Slot) (k : Int) (p : Color) : Except JsError Nat :=
  (fun st => st.2) <$> (List.range k.toNat).foldlM (closestStep centroids p) (none, 0)

/-- A cluster accumulator `{ r, g, b, count }`. -/
structure Cluster where
  r : ℚ
  g : ℚ
  b : ℚ
  count : Nat
deriving DecidableEq

/-- The body of the pixel loop (lines 207-225): find the nearest centroid and add the
pixel to its accumulator. -/
def assignStep (centroids : List Slot) (k : Int) (clusters : List Cluster) (p : Color) :
    Except JsError (List Cluster) :=
  match closestIndex centroids k p with
  | .error e => .error e
  | .ok j =>
    match clusters[j]? with
    | none => .error JsError.typeError
    | some cl =>
      .ok (clusters.set j
        { r := cl.r + p.1, g := cl.g + p.2.1, b := cl.b + p.2.2, count := cl.count + 1 })

/-- Lines 204-226: the accumulators after all pixels are assigned. -/
def assignPixels (centroids : List Slot) (k : Int) (pixels : List Color) :
    Except JsError (List Cluster) :=
  if k < 0 then .error JsError.rangeError
  else pixels.foldlM (assignStep centroids k) (List.replicate k.toNat ⟨0, 0, 0, 0⟩)

/-- The body of the loop of lines 229-240 on the state `(centroids, pos)`. -/
def recalcStep (rnd : RandomSource) (pixels : List Color) (clusters : List Cluster)
    (st : List Slot × Nat) (j : Nat) : Except JsError (List Slot × Nat) :=
  match clusters[j]? with
  | none => .error JsError.typeError
  | some cl =>
    if cl.count > 0 then
      .ok (st.1.set j (some (cl.r / cl.count, cl.g / cl.count, cl.b / cl.count)), st.2)
    else
      .ok (st.1.set j pixels[randomIndex rnd st.2 pixels.length]?, st.2 + 1)

/-- Lines 229-240: the new centroids and the position of the next draw. -/
def recalcCentroids (rnd : RandomSource) (pixels : List Color) (k : Int)
    (clusters : List Cluster) (centroids : List Slot) (pos : Nat) :
    Except JsError (List Slot × Nat) :=
  (List.range k.toNat).foldlM (recalcStep rnd pixels clusters) (centroids, pos)

/-- One iteration of the loop of lines 202-241. -/
def kmeansIteration (rnd : RandomSource) (pixels : List Color) (k : Int)
    (st : List Slot × Nat) : Except JsError (List Slot × Nat) :=
  match assignPixels st.1 k pixels with
  | .error e => .error e
  | .ok clusters => recalcCentroids rnd pixels k clusters st.1 st.2

/-- The loop of lines 202-241 run `iterations` times. -/
def kmeansLoop (rnd : RandomSource) (pixels : List Color) (k : Int) :
    Nat → List Slot × Nat → Except JsError (List Slot × Nat)
  | 0, st => .ok st
  | n + 1, st =>
    match kmeansIteration rnd pixels k st with
    | .error e => .error e
    | .ok st' => kmeansLoop rnd pixels k n st'

/-- The constant `iterations` of line 200. -/
def iterations : Nat := 5

/-- One pass of the loop body of lines 255-260 on the state `(minDist, bestColor)`. -/
def bestStep (centroids : List Slot) (p : Color) (st : Option ℚ × Slot) (j : Nat) :
    Except JsError (Option ℚ × Slot) :=
  match centroids[j]? with
  | some (some c) =>
    let dist := sqDist p c
    if ltMinDist dist st.1 then .ok (some dist, some c) else .ok st
  | _ => .error JsError.typeError

/-- Lines 251-261: the nearest centroid colour of `p`, starting from `centroids[0]`. -/
def bestColor (centroids : List Slot) (k : Int) (p : Color) : Except JsError Slot :=
  (fun st => st.2) <$>
    (List.range k.toNat).foldlM (bestStep centroids p) (none, (centroids[0]?).join)

/-- Step 4 (lines 244-267): every pixel whose alpha is at least 128 gets the colour of
its nearest centroid, converted to bytes by the store. -/
def mapPixels (centroids : List Slot) (k : Int) : List Nat → Except JsError (List Nat)
  | r :: g :: b :: a :: rest =>
    if a < 128 then
      match mapPixels centroids k rest with
      | .error e => .error e
      | .ok out => .ok (r :: g :: b :: a :: out)
    else
      match bestColor centroids k ((r : ℚ), (g : ℚ), (b : ℚ)) with
      | .error e => .error e
      | .ok none => .error JsError.typeError
      | .ok (some c) =>
        match mapPixels centroids k rest with
        | .error e => .error e
        | .ok out => .ok (toUint8Clamp c.1 :: toUint8Clamp c.2.1 :: toUint8Clamp c.2.2 :: a :: out)
  | rest => .ok rest

/-- Steps 2 and 3 (lines 193-241): the final centroids and the position of the next
draw. -/
def fitCentroids (rnd : RandomSource) (pos : Nat) (pixels : List Color) (k : Int) :
    Except JsError (List Slot × Nat) :=
  kmeansLoop rnd pixels k iterations (initCentroids rnd pixels k.toNat pos, pos + k.toNat)

/-- The function `quantizeImage(imageData, k)`, with the random source `rnd` read from
draw `pos` on; the result is the returned image and the position of the next draw. -/
def quantizeImage (rnd : RandomSource) (pos : Nat) (imageData : ImageData) (k : Int) :
    Except JsError (ImageData × Nat) :=
  let data := imageData.data
  let pixels := collectPixels data
  if pixels.length = 0 then .ok (imageData, pos)
  else
    match fitCentroids rnd pos pixels k with
    | .error e => .error e
    | .ok (centroids, pos') =>
      match mapPixels centroids k data with
      | .error e => .error e
      | .ok out => .ok ({ imageData with data := out }, pos')

/-! ## processImage (lines 121-132) -/

/-- Steps 3 and 4 of `processImage`: `canvas` is the canvas content left by
`drawImage`, `detail` and `palette` are the parsed slider values; the result is the
content that `putImageData` leaves on the canvas. -/
def processImage (rnd : RandomSource) (pos : Nat) (canvas : ImageData)
    (detail palette : Int) : Except JsError (ImageData × Nat) :=
  let targetWidth := canvas.width
  let targetHeight := canvas.height
  let sharpenAmount : ℚ := (detail : ℚ) / 100
  let ctx :=
    if sharpenAmount > 0 then sharpenCanvas canvas targetWidth targetHeight sharpenAmount
    else canvas
  quantizeImage rnd pos ctx palette

/-! ## Specification-level definitions used in the statements -/

/-- The value the pass stores for channel `c` of pixel `(x, y)`. -/
def sharpenByte (copy : List Nat) (w h : Nat) (amount : ℚ) (y x c : Nat) : Nat :=
  sharpenValue copy amount ((y * w + x) * 4)
    (((max 0 ((y : Int) - 1)).toNat * w + x) * 4)
    (((min ((h : Int) - 1) ((y : Int) + 1)).toNat * w + x) * 4)
    ((y * w + (max 0 ((x : Int) - 1)).toNat) * 4)
    ((y * w + (min ((w : Int) - 1) ((x : Int) + 1)).toNat) * 4) c

/-- Channel `c` of the pixel `(x, y)` of a `w`-wide RGBA buffer. -/
def chan (data : List Nat) (w x y c : Nat) : Nat :=
  data.getD ((y * w + x) * 4 + c) 0

/-- The sharpening formula of the specification:
`clamp(v + (v - 0.25 * (up + down + left + right)) * amount * 4, 0, 255)`. -/
def sharpenFormula (v up down left right : Nat) (amount : ℚ) : ℚ :=
  min 255 (max 0 ((v : ℚ) + ((v : ℚ) - (1 / 4) * ((up : ℚ) + down + left + right)) * amount * 4))

/-- The 3x3 kernel written in the comment of lines 141-144. -/
def sharpenKernel : List (List Int) := [[0, -1, 0], [-1, 5, -1], [0, -1, 0]]

/-- A coordinate clamped to the edge of an axis of `n` cells. -/
def clampCoord (n : Nat) (i : Int) : Nat :=
  (max 0 (min ((n : Int) - 1) i)).toNat

/-- The edge-clamped convolution of channel `c` at `(x, y)` with `sharpenKernel`. -/
def kernelConvolution (data : List Nat) (w h x y c : Nat) : Int :=
  ((List.range 3).map (fun dy =>
    ((List.range 3).map (fun dx =>
      (sharpenKernel.getD dy []).getD dx 0 *
        (chan data w (clampCoord w ((x : Int) + dx - 1)) (clampCoord h ((y : Int) + dy - 1)) c
          : Int))).sum)).sum

/-- The lowest index among the centroids at minimal squared distance from `p`. -/
def firstNearest (cs : List Color) (p : Color) : Nat :=
  cs.findIdx (fun c => decide (∀ c' ∈ cs, sqDist p c ≤ sqDist p c'))

/-- The samples whose nearest centroid (lowest index first) is number `j`. -/
def clusterOf (cs : List Color) (pixels : List Color) (j : Nat) : List Color :=
  pixels.filter (fun p => decide (firstNearest cs p = j))

/-- The per-channel arithmetic mean of a list of samples. -/
def meanColor (s : List Color) : Color :=
  ((s.map (fun p => p.1)).sum / s.length, (s.map (fun p => p.2.1)).sum / s.length,
    (s.map (fun p => p.2.2)).sum / s.length)

/-- The loop invariant of the search: after `n` centroids the state holds the first
index of minimal distance among them. -/
def ClosestInv (cs : List Color) (p : Color) (n : Nat) (st : Option ℚ × Nat) : Prop :=
  (n = 0 ∧ st = (none, 0)) ∨
    ∃ j, ∃ hj : j < cs.length, j < n ∧ st = (some (sqDist p cs[j]), j) ∧
      (∀ i, ∀ hi : i < cs.length, i < n → sqDist p cs[j] ≤ sqDist p cs[i]) ∧
      (∀ i, ∀ hi : i < cs.length, i < j → sqDist p cs[j] < sqDist p cs[i])

/-- The accumulator that the assignment pass builds for a cluster. -/
def clusterSum (s : List Color) : Cluster :=
  { r := (s.map (fun p => p.1)).sum, g := (s.map (fun p => p.2.1)).sum,
    b := (s.map (fun p => p.2.2)).sum, count := s.length }

/-- Every channel of `c` lies between the corresponding channels of `lo` and `hi`. -/
def InBox (lo hi c : Color) : Prop :=
  (lo.1 ≤ c.1 ∧ c.1 ≤ hi.1) ∧ (lo.2.1 ≤ c.2.1 ∧ c.2.1 ≤ hi.2.1) ∧
    (lo.2.2 ≤ c.2.2 ∧ c.2.2 ≤ hi.2.2)

/-- The minimum of a list of numbers (0 for the empty list). -/
def minOf : List ℚ → ℚ
  | [] => 0
  | [x] => x
  | x :: y :: l => min x (minOf (y :: l))

/-- The maximum of a list of numbers (0 for the empty list). -/
def maxOf : List ℚ → ℚ
  | [] => 0
  | [x] => x
  | x :: y :: l => max x (maxOf (y :: l))

/-- The per-channel minimum of a list of samples. -/
def minColor (pixels : List Color) : Color :=
  (minOf (pixels.map (fun p => p.1)), minOf (pixels.map (fun p => p.2.1)),
    minOf (pixels.map (fun p => p.2.2)))

/-- The per-channel maximum of a list of samples. -/
def maxColor (pixels : List Color) : Color :=
  (maxOf (pixels.map (fun p => p.1)), maxOf (pixels.map (fun p => p.2.1)),
    maxOf (pixels.map (fun p => p.2.2)))

/-- The four bytes `(r, g, b, a)` of pixel number `i` of an RGBA buffer. -/
def pixelAt (data : List Nat) (i : Nat) : Option (Nat × Nat × Nat × Nat) :=
  match data[4 * i]?, data[4 * i + 1]?, data[4 * i + 2]?, data[4 * i + 3]? with
  | some r, some g, some b, some a => some (r, g, b, a)
  | _, _, _, _ => none

/-- The bytes that a store of the colour `c` leaves in the buffer. -/
def storeColor (c : Color) : Nat × Nat × Nat :=
  (toUint8Clamp c.1, toUint8Clamp c.2.1, toUint8Clamp c.2.2)

/-- The `(r, g, b)` bytes of the pixels whose alpha is at least 128, in scan order. -/
def opaqueColors : List Nat → List (Nat × Nat × Nat)
  | r :: g :: b :: a :: rest =>
    if a < 128 then opaqueColors rest else (r, g, b) :: opaqueColors rest
  | _ => []

/-- The mapping pass as a total function: every pixel whose alpha is at least 128 gets
the stored colour of its nearest centroid, every other byte is kept. -/
def mapNearest (cs : List Color) : List Nat → List Nat
  | r :: g :: b :: a :: rest =>
    if a < 128 then r :: g :: b :: a :: mapNearest cs rest
    else
      match cs[firstNearest cs ((r : ℚ), (g : ℚ), (b : ℚ))]? with
      | some c => toUint8Clamp c.1 :: toUint8Clamp c.2.1 :: toUint8Clamp c.2.2 :: a ::
          mapNearest cs rest
      | none => r :: g :: b :: a :: mapNearest cs rest
  | rest => rest

/-! ## Concrete inputs used by the witnesses and counterexamples -/

/-- A random source whose every draw is 0 (every drawn index is 0). -/
def rndZero : RandomSource := fun _ => ⟨0, le_refl 0, by norm_num⟩

/-- A random source whose draws cycle through 0, 1/3 and 2/3. -/
def rndThirds : RandomSource := fun i =>
  ⟨((i % 3 : Nat) : ℚ) / 3,
    div_nonneg (Nat.cast_nonneg _) (by norm_num),
    by
      have h : ((i % 3 : Nat) : ℚ) < 3 := by exact_mod_cast Nat.mod_lt i (by norm_num)
      rw [div_lt_one (by norm_num)]
      exact h⟩

/-- A random source whose every draw is 2/3. -/
def rndTwoThirds : RandomSource := fun _ => ⟨2 / 3, by norm_num, by norm_num⟩

/-- Three greys. -/
def greyImage : ImageData := ⟨3, 1, [0, 0, 0, 255, 10, 10, 10, 255, 100, 100, 100, 255]⟩

/-- The samples of `greyImage`. -/
def greyPixels : List Color := [(0, 0, 0), (10, 10, 10), (100, 100, 100)]

/-- Two pixels of colour (7,8,9) with alpha at least 128 around a translucent pixel. -/
def flatImage : ImageData := ⟨3, 1, [7, 8, 9, 255, 1, 2, 3, 10, 7, 8, 9, 200]⟩

/-- The 4 x 1 buffer of the scenario: opaque (0,0,0), (10,0,0), (250,250,250),
(255,255,255). -/
def scenarioImage : ImageData :=
  ⟨4, 1, [0, 0, 0, 255, 10, 0, 0, 255, 250, 250, 250, 255, 255, 255, 255, 255]⟩

/-- The samples of `scenarioImage`. -/
def scenarioPixels : List Color :=
  [(0, 0, 0), (10, 0, 0), (250, 250, 250), (255, 255, 255)]

/-- The mean of the two dark samples of the scenario. -/
def darkMean : Color := (5, 0, 0)

/-- The mean of the two light samples of the scenario. -/
def lightMean : Color := (505 / 2, 505 / 2, 505 / 2)

/-- The two centroids `cs` separate the dark samples of the scenario from the light
ones: cluster `a` holds the dark pair and the other cluster the light pair. -/
def SplitsScenario (cs : List Color) (a : Nat) : Prop :=
  cs.length = 2 ∧ a < 2 ∧
    clusterOf cs scenarioPixels a = [(0, 0, 0), (10, 0, 0)] ∧
    clusterOf cs scenarioPixels (1 - a) = [(250, 250, 250), (255, 255, 255)]

/-! ## Lemmas on toUint8Clamp -/

theorem toUint8Clamp_intCast (z : Int) : toUint8Clamp (z : ℚ) = (max 0 (min 255 z)).toNat := by
  have hc : min (max (z : ℚ) 0) 255 = ((min (max z 0) 255 : Int) : ℚ) := by push_cast; rfl
  unfold toUint8Clamp
  simp only [hc, Int.floor_intCast]
  rw [if_pos (by linarith [show (0:ℚ) < 1/2 by norm_num])]
  congr 1
  omega

theorem toUint8Clamp_natCast (n : Nat) (hn : n ≤ 255) : toUint8Clamp (n : ℚ) = n := by
  have := toUint8Clamp_intCast (n : Int)
  simp only [Int.cast_natCast] at this
  rw [this]
  omega

theorem toUint8Clamp_bounds (x : ℚ) (lo hi : Nat) (hhi : hi ≤ 255) (h1 : (lo : ℚ) ≤ x)
    (h2 : x ≤ hi) : lo ≤ toUint8Clamp x ∧ toUint8Clamp x ≤ hi := by
  have hx0 : (0 : ℚ) ≤ x := le_trans (Nat.cast_nonneg lo) h1
  have hx255 : x ≤ 255 := le_trans h2 (by exact_mod_cast hhi)
  have hc : min (max x 0) 255 = x := by
    rw [max_eq_left hx0, min_eq_left hx255]
  unfold toUint8Clamp
  simp only [hc]
  have hf1 : ((⌊x⌋ : Int) : ℚ) ≤ x := Int.floor_le x
  have hf2 : x < (⌊x⌋ : ℚ) + 1 := Int.lt_floor_add_one x
  have hlo : (lo : Int) ≤ ⌊x⌋ := Int.le_floor.mpr (by exact_mod_cast h1)
  have hhi' : ⌊x⌋ ≤ (hi : Int) := by
    have : ((⌊x⌋ : Int) : ℚ) ≤ ((hi : Int) : ℚ) := le_trans hf1 (by exact_mod_cast h2)
    exact_mod_cast this
  have hup : ∀ (_ : (⌊x⌋ : ℚ) < x), ⌊x⌋ + 1 ≤ (hi : Int) := by
    intro hlt
    have : ((⌊x⌋ : Int) : ℚ) < ((hi : Int) : ℚ) := lt_of_lt_of_le hlt (by exact_mod_cast h2)
    have : ⌊x⌋ < (hi : Int) := by exact_mod_cast this
    omega
  split_ifs with ha hb hc'
  · omega
  · have := hup (by linarith)
    omega
  · omega
  · have := hup (by linarith)
    omega

theorem toUint8Clamp_le (x : ℚ) : toUint8Clamp x ≤ 255 := by
  have h1 : (0 : ℚ) ≤ min (max x 0) 255 := le_min (le_max_right _ _) (by norm_num)
  have h2 : min (max x 0) 255 ≤ (255 : ℚ) := min_le_right _ _
  have hc : toUint8Clamp x = toUint8Clamp (min (max x 0) 255) := by
    unfold toUint8Clamp
    simp only [max_eq_left h1, min_eq_left h2]
  rw [hc]
  exact (toUint8Clamp_bounds _ 0 255 le_rfl (by exact_mod_cast h1) (by exact_mod_cast h2)).2


/-! ## Lemmas on sharpenCanvas -/

theorem sharpenPixel_length (copy : List Nat) (w h : Nat) (amount : ℚ) (y : Nat)
    (data : List Nat) (x : Nat) :
    (sharpenPixel copy w h amount y data x).length = data.length := by
  simp [sharpenPixel, List.range_succ]

theorem sharpenPixel_getElem? (copy : List Nat) (w h : Nat) (amount : ℚ) (y : Nat)
    (data : List Nat) (x m : Nat) :
    (sharpenPixel copy w h amount y data x)[m]? =
      if m / 4 = y * w + x ∧ m % 4 < 3 ∧ m < data.length then
        some (sharpenByte copy w h amount y x (m % 4))
      else data[m]? := by
  have hr : List.range 3 = [0, 1, 2] := by decide
  simp only [sharpenPixel, hr, List.foldl_cons, List.foldl_nil, List.getElem?_set,
    List.length_set, sharpenByte]
  split_ifs <;>
    first
    | rfl
    | (exfalso; omega)
    | (have h : m % 4 = 2 := by omega
       rw [h])
    | (have h : m % 4 = 1 := by omega
       rw [h])
    | (have h : m % 4 = 0 := by omega
       rw [h])
    | (symm; apply List.getElem?_eq_none; omega)

theorem sharpenRow_length (copy : List Nat) (w h : Nat) (amount : ℚ) (data : List Nat)
    (y : Nat) : (sharpenRow copy w h amount data y).length = data.length := by
  unfold sharpenRow
  generalize List.range w = xs
  induction xs generalizing data with
  | nil => rfl
  | cons x xs ih => rw [List.foldl_cons, ih, sharpenPixel_length]

theorem sharpenRow_upto_getElem? (copy : List Nat) (w h : Nat) (amount : ℚ) (y : Nat)
    (data : List Nat) (n m : Nat) :
    ((List.range n).foldl (sharpenPixel copy w h amount y) data)[m]? =
      if y * w ≤ m / 4 ∧ m / 4 < y * w + n ∧ m % 4 < 3 ∧ m < data.length then
        some (sharpenByte copy w h amount y (m / 4 - y * w) (m % 4))
      else data[m]? := by
  induction n with
  | zero =>
    rw [List.range_zero, List.foldl_nil, if_neg (by omega)]
  | succ n ih =>
    rw [List.range_succ, List.foldl_append, List.foldl_cons, List.foldl_nil,
      sharpenPixel_getElem?, ih]
    have hl : ((List.range n).foldl (sharpenPixel copy w h amount y) data).length
        = data.length := by
      clear ih
      induction n with
      | zero => rfl
      | succ n ih => rw [List.range_succ, List.foldl_append, List.foldl_cons, List.foldl_nil,
          sharpenPixel_length, ih]
    rw [hl]
    by_cases h1 : m / 4 = y * w + n ∧ m % 4 < 3 ∧ m < data.length
    · rw [if_pos h1, if_pos (by omega)]
      have : m / 4 - y * w = n := by omega
      rw [this]
    · rw [if_neg h1]
      by_cases h2 : y * w ≤ m / 4 ∧ m / 4 < y * w + n ∧ m % 4 < 3 ∧ m < data.length
      · rw [if_pos h2, if_pos (by omega)]
      · rw [if_neg h2, if_neg (by omega)]

theorem sharpenRow_getElem? (copy : List Nat) (w h : Nat) (amount : ℚ) (y : Nat)
    (data : List Nat) (m : Nat) :
    (sharpenRow copy w h amount data y)[m]? =
      if y * w ≤ m / 4 ∧ m / 4 < y * w + w ∧ m % 4 < 3 ∧ m < data.length then
        some (sharpenByte copy w h amount y (m / 4 - y * w) (m % 4))
      else data[m]? :=
  sharpenRow_upto_getElem? copy w h amount y data w m

theorem sharpenRows_length (copy : List Nat) (w h : Nat) (amount : ℚ) (data : List Nat)
    (n : Nat) : ((List.range n).foldl (sharpenRow copy w h amount) data).length
      = data.length := by
  induction n with
  | zero => rfl
  | succ n ih =>
    rw [List.range_succ, List.foldl_append, List.foldl_cons, List.foldl_nil,
      sharpenRow_length, ih]

theorem sharpenRows_getElem? (copy : List Nat) (w h : Nat) (amount : ℚ)
    (data : List Nat) (n m : Nat) :
    ((List.range n).foldl (sharpenRow copy w h amount) data)[m]? =
      if m / 4 < n * w ∧ m % 4 < 3 ∧ m < data.length then
        some (sharpenByte copy w h amount (m / 4 / w) (m / 4 % w) (m % 4))
      else data[m]? := by
  induction n with
  | zero =>
    rw [List.range_zero, List.foldl_nil, if_neg (by omega)]
  | succ n ih =>
    rw [List.range_succ, List.foldl_append, List.foldl_cons, List.foldl_nil]
    rw [sharpenRow_getElem?, ih, sharpenRows_length]
    have hmul : (n + 1) * w = n * w + w := by ring
    by_cases h1 : n * w ≤ m / 4 ∧ m / 4 < n * w + w ∧ m % 4 < 3 ∧ m < data.length
    · rw [if_pos h1, if_pos (by omega)]
      have hd : m / 4 / w = n :=
        Nat.div_eq_of_lt_le (by omega) (by rw [hmul]; omega)
      have hmod : m / 4 % w = m / 4 - n * w := by
        have := Nat.div_add_mod (m / 4) w
        rw [hd, Nat.mul_comm] at this
        omega
      rw [hd, hmod]
    · rw [if_neg h1]
      by_cases h2 : m / 4 < n * w ∧ m % 4 < 3 ∧ m < data.length
      · rw [if_pos h2, if_pos (by omega)]
      · rw [if_neg h2, if_neg (by omega)]

theorem sharpenCanvas_getElem? (ctx : ImageData) (w h : Nat) (amount : ℚ) (m : Nat) :
    (sharpenCanvas ctx w h amount).data[m]? =
      if m / 4 < h * w ∧ m % 4 < 3 ∧ m < ctx.data.length then
        some (sharpenByte ctx.data w h amount (m / 4 / w) (m / 4 % w) (m % 4))
      else ctx.data[m]? := by
  simp only [sharpenCanvas]
  exact sharpenRows_getElem? ctx.data w h amount ctx.data h m

theorem sharpenCanvas_length (ctx : ImageData) (w h : Nat) (amount : ℚ) :
    (sharpenCanvas ctx w h amount).data.length = ctx.data.length := by
  simp only [sharpenCanvas]
  exact sharpenRows_length ctx.data w h amount ctx.data h

/-- Byte index arithmetic: the pixel `(x, y)` of a `w`-wide buffer. -/
theorem pixel_index (w x y c : Nat) (hx : x < w) (hc : c < 4) :
    ((y * w + x) * 4 + c) / 4 = y * w + x ∧ ((y * w + x) * 4 + c) % 4 = c ∧
      (y * w + x) / w = y ∧ (y * w + x) % w = x := by
  refine ⟨by omega, by omega, ?_, ?_⟩
  · rw [Nat.mul_comm, Nat.mul_add_div (by omega), Nat.div_eq_of_lt hx, Nat.add_zero]
  · rw [Nat.mul_comm, Nat.mul_add_mod, Nat.mod_eq_of_lt hx]

theorem pixel_index_lt (w h x y c : Nat) (hx : x < w) (hy : y < h) (hc : c < 4) :
    (y * w + x) * 4 + c < w * h * 4 := by
  have h1 : y * w + x < w * h := by
    calc y * w + x < y * w + w := by omega
      _ = (y + 1) * w := by ring
      _ ≤ h * w := Nat.mul_le_mul_right w hy
      _ = w * h := Nat.mul_comm h w
  omega

theorem getElem?_eq_some_getD (l : List Nat) (i : Nat) (h : i < l.length) :
    l[i]? = some (l.getD i 0) := by
  rw [List.getD_eq_getElem?_getD, List.getElem?_eq_getElem h]
  rfl

theorem sharpenByte_eq (copy : List Nat) (w h : Nat) (amount : ℚ) (x y c : Nat)
    (hx : x < w) (hy : y < h) (hc : c < 3) (hlen : copy.length = w * h * 4) :
    sharpenByte copy w h amount y x c =
      toUint8Clamp (min 255 (max 0
        ((copy.getD ((y * w + x) * 4 + c) 0 : ℚ) +
          ((copy.getD ((y * w + x) * 4 + c) 0 : ℚ) -
            ((copy.getD (((y - 1) * w + x) * 4 + c) 0 : ℚ) +
              (copy.getD ((min (h - 1) (y + 1) * w + x) * 4 + c) 0 : ℚ) +
              (copy.getD ((y * w + (x - 1)) * 4 + c) 0 : ℚ) +
              (copy.getD ((y * w + min (w - 1) (x + 1)) * 4 + c) 0 : ℚ)) * (1 / 4))
            * amount * 4))) := by
  have e1 : (max 0 ((y : Int) - 1)).toNat = y - 1 := by omega
  have e2 : (min ((h : Int) - 1) ((y : Int) + 1)).toNat = min (h - 1) (y + 1) := by omega
  have e3 : (max 0 ((x : Int) - 1)).toNat = x - 1 := by omega
  have e4 : (min ((w : Int) - 1) ((x : Int) + 1)).toNat = min (w - 1) (x + 1) := by omega
  have b0 := pixel_index_lt w h x y c hx hy (by omega)
  have b1 := pixel_index_lt w h x (y - 1) c hx (by omega) (by omega)
  have b2 := pixel_index_lt w h x (min (h - 1) (y + 1)) c hx (by omega) (by omega)
  have b3 := pixel_index_lt w h (x - 1) y c (by omega) hy (by omega)
  have b4 := pixel_index_lt w h (min (w - 1) (x + 1)) y c (by omega) hy (by omega)
  unfold sharpenByte sharpenValue
  rw [e1, e2, e3, e4,
    getElem?_eq_some_getD copy _ (by rw [hlen]; exact b0),
    getElem?_eq_some_getD copy _ (by rw [hlen]; exact b1),
    getElem?_eq_some_getD copy _ (by rw [hlen]; exact b2),
    getElem?_eq_some_getD copy _ (by rw [hlen]; exact b3),
    getElem?_eq_some_getD copy _ (by rw [hlen]; exact b4)]


theorem sharpenCanvas_point (ctx : ImageData) (w h : Nat) (amount : ℚ) (x y c : Nat)
    (hlen : ctx.data.length = w * h * 4) (hx : x < w) (hy : y < h) (hc : c < 3) :
    (sharpenCanvas ctx w h amount).data[(y * w + x) * 4 + c]? =
      some (sharpenByte ctx.data w h amount y x c) := by
  obtain ⟨i1, i2, i3, i4⟩ := pixel_index w x y c hx (by omega)
  have hlt := pixel_index_lt w h x y c hx hy (by omega)
  have hq : y * w + x < h * w := by
    have := pixel_index_lt w h x y 0 hx hy (by omega)
    rw [Nat.mul_comm h w]
    omega
  rw [sharpenCanvas_getElem?, i1, i2, i3, i4, if_pos ⟨hq, hc, by rw [hlen]; exact hlt⟩]

theorem sharpenByte_formula (copy : List Nat) (w h : Nat) (amount : ℚ) (x y c : Nat)
    (hx : x < w) (hy : y < h) (hc : c < 3) (hlen : copy.length = w * h * 4) :
    sharpenByte copy w h amount y x c =
      toUint8Clamp (sharpenFormula (chan copy w x y c) (chan copy w x (y - 1) c)
        (chan copy w x (min (h - 1) (y + 1)) c) (chan copy w (x - 1) y c)
        (chan copy w (min (w - 1) (x + 1)) y c) amount) := by
  rw [sharpenByte_eq copy w h amount x y c hx hy hc hlen]
  unfold sharpenFormula chan
  congr 4
  ring

theorem sharpenCanvas_eq_of_fixed (ctx : ImageData) (w h : Nat) (amount : ℚ)
    (hfix : ∀ x y c, x < w → y < h → c < 3 → (y * w + x) * 4 + c < ctx.data.length →
      sharpenByte ctx.data w h amount y x c = ctx.data.getD ((y * w + x) * 4 + c) 0) :
    sharpenCanvas ctx w h amount = ctx := by
  have hd : (sharpenCanvas ctx w h amount).data = ctx.data := by
    apply List.ext_getElem?
    intro m
    rw [sharpenCanvas_getElem?]
    split_ifs with hm
    · obtain ⟨h1, h2, h3⟩ := hm
      have hw : 0 < w := by
        rcases Nat.eq_zero_or_pos w with h0 | h0
        · rw [h0] at h1; omega
        · exact h0
      have hxw : m / 4 % w < w := Nat.mod_lt _ hw
      have hyh : m / 4 / w < h := (Nat.div_lt_iff_lt_mul hw).mpr h1
      have hidx : (m / 4 / w * w + m / 4 % w) * 4 + m % 4 = m := by
        have := Nat.div_add_mod (m / 4) w
        rw [Nat.mul_comm] at this
        omega
      have := hfix (m / 4 % w) (m / 4 / w) (m % 4) hxw hyh h2 (by rw [hidx]; exact h3)
      rw [this, hidx, getElem?_eq_some_getD _ _ h3]
    · rfl
  calc sharpenCanvas ctx w h amount
      = { ctx with data := (sharpenCanvas ctx w h amount).data } := rfl
    _ = ctx := by rw [hd]

theorem mem_of_lt_length (l : List Nat) (i : Nat) (h : i < l.length) : l.getD i 0 ∈ l := by
  rw [List.getD_eq_getElem?_getD, List.getElem?_eq_getElem h]
  exact List.getElem_mem h

theorem sharpenCanvas_zero (ctx : ImageData) (w h : Nat)
    (hlen : ctx.data.length = w * h * 4) (hbytes : ∀ v ∈ ctx.data, v ≤ 255) :
    sharpenCanvas ctx w h 0 = ctx := by
  apply sharpenCanvas_eq_of_fixed
  intro x y c hx hy hc hlt
  rw [sharpenByte_eq ctx.data w h 0 x y c hx hy hc hlen]
  have hv := hbytes _ (mem_of_lt_length ctx.data _ hlt)
  have hv' : ((ctx.data.getD ((y * w + x) * 4 + c) 0 : Nat) : ℚ) ≤ 255 := by exact_mod_cast hv
  rw [mul_zero, zero_mul, add_zero, max_eq_right (Nat.cast_nonneg _), min_eq_right hv']
  exact toUint8Clamp_natCast _ hv

theorem sharpenCanvas_uniform (ctx : ImageData) (w h : Nat) (amount : ℚ) (col : Nat → Nat)
    (hlen : ctx.data.length = w * h * 4) (hbytes : ∀ v ∈ ctx.data, v ≤ 255)
    (hcol : ∀ x y c, x < w → y < h → c < 3 → chan ctx.data w x y c = col c) :
    sharpenCanvas ctx w h amount = ctx := by
  apply sharpenCanvas_eq_of_fixed
  intro x y c hx hy hc hlt
  rw [sharpenByte_formula ctx.data w h amount x y c hx hy hc hlen]
  have hv := hbytes _ (mem_of_lt_length ctx.data _ hlt)
  rw [hcol x y c hx hy hc, hcol x (y - 1) c hx (by omega) hc,
    hcol x (min (h - 1) (y + 1)) c hx (by omega) hc, hcol (x - 1) y c (by omega) hy hc,
    hcol (min (w - 1) (x + 1)) y c (by omega) hy hc]
  have hc' : ctx.data.getD ((y * w + x) * 4 + c) 0 = col c := hcol x y c hx hy hc
  rw [hc'] at hv ⊢
  have hv' : ((col c : Nat) : ℚ) ≤ 255 := by exact_mod_cast hv
  have : sharpenFormula (col c) (col c) (col c) (col c) (col c) amount = (col c : ℚ) := by
    unfold sharpenFormula
    have e : ((col c : ℚ) + ((col c : ℚ) - 1 / 4 * ((col c : ℚ) + col c + col c + col c))
        * amount * 4) = (col c : ℚ) := by ring
    rw [e, max_eq_right (Nat.cast_nonneg _), min_eq_right hv']
  rw [this]
  exact toUint8Clamp_natCast _ hv

theorem clampCoord_eq (n i : Nat) (hi : i < n) :
    clampCoord n ((i : Int) + (0 : Nat) - 1) = i - 1 ∧
    clampCoord n ((i : Int) + (1 : Nat) - 1) = i ∧
    clampCoord n ((i : Int) + (2 : Nat) - 1) = min (n - 1) (i + 1) := by
  unfold clampCoord
  refine ⟨by omega, by omega, by omega⟩

theorem kernelConvolution_eq (data : List Nat) (w h x y c : Nat) (hx : x < w) (hy : y < h) :
    kernelConvolution data w h x y c =
      5 * (chan data w x y c : Int) - chan data w x (y - 1) c
        - chan data w x (min (h - 1) (y + 1)) c - chan data w (x - 1) y c
        - chan data w (min (w - 1) (x + 1)) y c := by
  obtain ⟨x0, x1, x2⟩ := clampCoord_eq w x hx
  obtain ⟨y0, y1, y2⟩ := clampCoord_eq h y hy
  have hr : List.range 3 = [0, 1, 2] := by decide
  unfold kernelConvolution sharpenKernel
  simp only [hr, List.map_cons, List.map_nil, List.sum_cons, List.sum_nil, List.getD_cons_zero,
    List.getD_cons_succ, x0, x1, x2, y0, y1, y2]
  ring

theorem sharpenByte_one (copy : List Nat) (w h : Nat) (x y c : Nat)
    (hx : x < w) (hy : y < h) (hc : c < 3) (hlen : copy.length = w * h * 4) :
    sharpenByte copy w h 1 y x c =
      (max 0 (min 255 (kernelConvolution copy w h x y c))).toNat := by
  rw [sharpenByte_formula copy w h 1 x y c hx hy hc hlen, kernelConvolution_eq _ _ _ _ _ _ hx hy]
  have e : sharpenFormula (chan copy w x y c) (chan copy w x (y - 1) c)
      (chan copy w x (min (h - 1) (y + 1)) c) (chan copy w (x - 1) y c)
      (chan copy w (min (w - 1) (x + 1)) y c) 1 =
      ((min 255 (max 0 (5 * (chan copy w x y c : Int) - chan copy w x (y - 1) c
        - chan copy w x (min (h - 1) (y + 1)) c - chan copy w (x - 1) y c
        - chan copy w (min (w - 1) (x + 1)) y c)) : Int) : ℚ) := by
    unfold sharpenFormula
    push_cast
    congr 2
    ring
  rw [e, toUint8Clamp_intCast]
  omega

/-! ## Lemmas on the random source -/

theorem randomIndex_lt (rnd : RandomSource) (pos len : Nat) (h : 0 < len) :
    randomIndex rnd pos len < len := by
  unfold randomIndex
  have h0 := (rnd pos).nonneg
  have h1 := (rnd pos).lt_one
  have hl : (0 : ℚ) < (len : ℚ) := by exact_mod_cast h
  have hlt : (rnd pos).val * (len : ℚ) < ((len : Int) : ℚ) := by
    have : (rnd pos).val * (len : ℚ) < 1 * (len : ℚ) := mul_lt_mul_of_pos_right h1 hl
    simpa using this
  have hf : ⌊(rnd pos).val * (len : ℚ)⌋ < (len : Int) := Int.floor_lt.mpr hlt
  have hf0 : 0 ≤ ⌊(rnd pos).val * (len : ℚ)⌋ := Int.floor_nonneg.mpr (mul_nonneg h0 hl.le)
  omega

theorem randomDraw_some (rnd : RandomSource) (pos : Nat) (pixels : List Color)
    (h : pixels ≠ []) :
    ∃ c, c ∈ pixels ∧ pixels[randomIndex rnd pos pixels.length]? = some c := by
  have hl : 0 < pixels.length := List.length_pos.mpr h
  have hi := randomIndex_lt rnd pos pixels.length hl
  exact ⟨pixels[randomIndex rnd pos pixels.length], List.getElem_mem hi,
    List.getElem?_eq_getElem hi⟩

/-! ## Lemmas on the nearest-centroid search -/

theorem getElem?_map_some (cs : List Color) (j : Nat) (h : j < cs.length) :
    (cs.map some)[j]? = some (some cs[j]) := by
  rw [List.getElem?_map, List.getElem?_eq_getElem h]
  rfl

theorem closestFold_inv (cs : List Color) (p : Color) (n : Nat) (hn : n ≤ cs.length) :
    ∃ st, (List.range n).foldlM (closestStep (cs.map some) p) (none, 0) = .ok st ∧
      ClosestInv cs p n st := by
  induction n with
  | zero => exact ⟨(none, 0), rfl, Or.inl ⟨rfl, rfl⟩⟩
  | succ n ih =>
    obtain ⟨st, hst, hinv⟩ := ih (by omega)
    have hnl : n < cs.length := by omega
    rw [List.range_succ, List.foldlM_append, hst]
    simp only [Except.bind, bind, List.foldlM_cons, List.foldlM_nil, pure, Except.pure]
    unfold closestStep
    rw [getElem?_map_some cs n hnl]
    simp only
    rcases hinv with ⟨h0, hst0⟩ | ⟨j, hj, hjn, hstj, hmin, hfirst⟩
    · subst h0
      subst hst0
      refine ⟨(some (sqDist p cs[0]), 0), by simp [ltMinDist], Or.inr ⟨0, hnl, by omega, rfl, ?_, ?_⟩⟩
      · intro i hi hin
        have : i = 0 := by omega
        subst this
        exact le_rfl
      · intro i hi hin
        omega
    · subst hstj
      by_cases hlt : sqDist p cs[n] < sqDist p cs[j]
      · refine ⟨(some (sqDist p cs[n]), n), by simp [ltMinDist, hlt],
          Or.inr ⟨n, hnl, by omega, rfl, ?_, ?_⟩⟩
        · intro i hi hin
          rcases Nat.lt_or_ge i n with h | h
          · exact le_trans hlt.le (hmin i hi h)
          · have : i = n := by omega
            subst this
            exact le_rfl
        · intro i hi hin
          exact lt_of_lt_of_le hlt (hmin i hi hin)
      · refine ⟨(some (sqDist p cs[j]), j), by simp [ltMinDist, hlt],
          Or.inr ⟨j, hj, by omega, rfl, ?_, hfirst⟩⟩
        intro i hi hin
        rcases Nat.lt_or_ge i n with h | h
        · exact hmin i hi h
        · have : i = n := by omega
          subst this
          exact not_lt.mp hlt

theorem firstNearest_eq (cs : List Color) (p : Color) (j : Nat) (hj : j < cs.length)
    (hmin : ∀ i, ∀ hi : i < cs.length, sqDist p cs[j] ≤ sqDist p cs[i])
    (hfirst : ∀ i, ∀ hi : i < cs.length, i < j → sqDist p cs[j] < sqDist p cs[i]) :
    firstNearest cs p = j := by
  unfold firstNearest
  rw [List.findIdx_eq hj]
  constructor
  · rw [decide_eq_true_eq]
    intro c' hc'
    obtain ⟨i, hi, rfl⟩ := List.getElem_of_mem hc'
    exact hmin i hi
  · intro i hij
    rw [decide_eq_false_iff_not]
    intro hall
    have h1 := hall cs[j] (List.getElem_mem hj)
    have h2 := hfirst i (by omega) hij
    exact absurd h1 (not_le.mpr h2)

theorem closestFold_full (cs : List Color) (p : Color) :
    ∃ d, (List.range cs.length).foldlM (closestStep (cs.map some) p) (none, 0)
      = .ok (d, firstNearest cs p) := by
  obtain ⟨st, hst, hinv⟩ := closestFold_inv cs p cs.length le_rfl
  rcases hinv with ⟨h0, hst0⟩ | ⟨j, hj, _, hstj, hmin, hfirst⟩
  · have hnil : cs = [] := List.length_eq_zero.mp h0
    subst hnil
    exact ⟨none, by rw [hst, hst0]; rfl⟩
  · have := firstNearest_eq cs p j hj (fun i hi => hmin i hi hi) hfirst
    exact ⟨some (sqDist p cs[j]), by rw [hst, hstj, this]⟩

theorem closestIndex_eq (cs : List Color) (k : Int) (p : Color) (hk : k.toNat = cs.length) :
    closestIndex (cs.map some) k p = .ok (firstNearest cs p) := by
  obtain ⟨d, hd⟩ := closestFold_full cs p
  unfold closestIndex
  rw [hk, hd]
  rfl

theorem firstNearest_lt (cs : List Color) (p : Color) (h : cs ≠ []) :
    firstNearest cs p < cs.length := by
  obtain ⟨st, _, hinv⟩ := closestFold_inv cs p cs.length le_rfl
  rcases hinv with ⟨h0, _⟩ | ⟨j, hj, _, _, hmin, hfirst⟩
  · exact absurd (List.length_eq_zero.mp h0) h
  · rw [firstNearest_eq cs p j hj (fun i hi => hmin i hi hi) hfirst]
    exact hj

theorem firstNearest_spec (cs : List Color) (p : Color) (h : cs ≠ []) :
    ∃ hj : firstNearest cs p < cs.length,
      (∀ i, ∀ hi : i < cs.length, sqDist p cs[firstNearest cs p] ≤ sqDist p cs[i]) ∧
      (∀ i, ∀ hi : i < cs.length, i < firstNearest cs p →
        sqDist p cs[firstNearest cs p] < sqDist p cs[i]) := by
  obtain ⟨st, _, hinv⟩ := closestFold_inv cs p cs.length le_rfl
  rcases hinv with ⟨h0, _⟩ | ⟨j, hj, _, _, hmin, hfirst⟩
  · exact absurd (List.length_eq_zero.mp h0) h
  · have e := firstNearest_eq cs p j hj (fun i hi => hmin i hi hi) hfirst
    subst e
    exact ⟨hj, fun i hi => hmin i hi hi, hfirst⟩

theorem bestFold_sim (cs : List Color) (p : Color) (n : Nat) (hn : n ≤ cs.length)
    (d : Option ℚ) (j : Nat)
    (h : (List.range n).foldlM (closestStep (cs.map some) p) (none, 0) = .ok (d, j)) :
    (List.range n).foldlM (bestStep (cs.map some) p) (none, ((cs.map some)[0]?).join)
      = .ok (d, cs[j]?) := by
  induction n generalizing d j with
  | zero =>
    simp only [List.range_zero, List.foldlM_nil, pure, Except.pure] at h ⊢
    injection h with h
    injection h with h1 h2
    subst h1
    subst h2
    congr 2
    rw [List.getElem?_map]
    cases cs[0]? <;> rfl
  | succ n ih =>
    have hnl : n < cs.length := by omega
    obtain ⟨st, hst, _⟩ := closestFold_inv cs p n (by omega)
    rw [List.range_succ, List.foldlM_append, hst] at h
    rw [List.range_succ, List.foldlM_append, ih (by omega) st.1 st.2 hst]
    simp only [Except.bind, bind, List.foldlM_cons, List.foldlM_nil, pure, Except.pure] at h ⊢
    unfold closestStep at h
    unfold bestStep
    rw [getElem?_map_some cs n hnl] at h ⊢
    simp only at h ⊢
    by_cases hlt : ltMinDist (sqDist p cs[n]) st.1 = true
    · rw [if_pos hlt] at h ⊢
      injection h with h
      injection h with h1 h2
      subst h1
      subst h2
      rw [List.getElem?_eq_getElem hnl]
    · rw [if_neg hlt] at h ⊢
      injection h with h
      rw [h]

theorem bestColor_eq (cs : List Color) (k : Int) (p : Color) (hk : k.toNat = cs.length) :
    bestColor (cs.map some) k p = .ok (cs[firstNearest cs p]?) := by
  obtain ⟨d, hd⟩ := closestFold_full cs p
  unfold bestColor
  rw [hk, bestFold_sim cs p cs.length le_rfl d _ hd]
  rfl

/-! ## Lemmas on the assignment pass -/

theorem clusterOf_cons (cs : List Color) (p : Color) (ps : List Color) (j : Nat) :
    clusterOf cs (p :: ps) j =
      if firstNearest cs p = j then p :: clusterOf cs ps j else clusterOf cs ps j := by
  unfold clusterOf
  rw [List.filter_cons]
  simp only [decide_eq_true_eq]

/-- The body of the pixel loop on defined centroids: the accumulator of the nearest
centroid gets the pixel. -/
theorem assignStep_ok (cs : List Color) (k : Int) (hk : k.toNat = cs.length)
    (acc : List Cluster) (p : Color) (hlt : firstNearest cs p < acc.length) :
    assignStep (cs.map some) k acc p = .ok (acc.set (firstNearest cs p)
      { r := acc[firstNearest cs p].r + p.1, g := acc[firstNearest cs p].g + p.2.1,
        b := acc[firstNearest cs p].b + p.2.2, count := acc[firstNearest cs p].count + 1 }) := by
  unfold assignStep
  rw [closestIndex_eq cs k p hk]
  simp only [List.getElem?_eq_getElem hlt]

theorem assignFold_spec (cs : List Color) (k : Int) (hk : k.toNat = cs.length)
    (hcs : cs ≠ []) (pixels : List Color) (acc : List Cluster)
    (hacc : acc.length = cs.length) :
    ∃ acc', pixels.foldlM (assignStep (cs.map some) k) acc = .ok acc' ∧
      acc'.length = cs.length ∧
      ∀ j cl, acc[j]? = some cl →
        acc'[j]? = some
          ({ r := cl.r + (clusterSum (clusterOf cs pixels j)).r,
             g := cl.g + (clusterSum (clusterOf cs pixels j)).g,
             b := cl.b + (clusterSum (clusterOf cs pixels j)).b,
             count := cl.count + (clusterSum (clusterOf cs pixels j)).count } : Cluster) := by
  induction pixels generalizing acc with
  | nil =>
    refine ⟨acc, rfl, hacc, ?_⟩
    intro j cl hj
    simp [clusterOf, clusterSum, hj]
  | cons p ps ih =>
    have hlt : firstNearest cs p < acc.length := by
      rw [hacc]; exact firstNearest_lt cs p hcs
    rw [List.foldlM_cons, assignStep_ok cs k hk acc p hlt]
    simp only [bind, Except.bind]
    obtain ⟨acc', h1, h2, h3⟩ := ih (acc.set (firstNearest cs p)
      { r := acc[firstNearest cs p].r + p.1, g := acc[firstNearest cs p].g + p.2.1,
        b := acc[firstNearest cs p].b + p.2.2, count := acc[firstNearest cs p].count + 1 })
      (by rw [List.length_set, hacc])
    refine ⟨acc', h1, h2, ?_⟩
    intro j cl hj
    by_cases hjj : firstNearest cs p = j
    · subst hjj
      have hcl : acc[firstNearest cs p] = cl := by
        rw [List.getElem?_eq_getElem hlt] at hj
        exact Option.some.inj hj
      have := h3 (firstNearest cs p) _ (by rw [List.getElem?_set, if_pos rfl, if_pos hlt])
      rw [this, clusterOf_cons, if_pos rfl, hcl]
      simp only [clusterSum, List.map_cons, List.sum_cons, List.length_cons]
      congr 2 <;> ring
    · have := h3 j cl (by rw [List.getElem?_set, if_neg hjj]; exact hj)
      rw [this, clusterOf_cons, if_neg hjj]

theorem assignPixels_spec (cs : List Color) (k : Int) (hk : k.toNat = cs.length)
    (hcs : cs ≠ []) (pixels : List Color) :
    ∃ clusters, assignPixels (cs.map some) k pixels = .ok clusters ∧
      clusters.length = cs.length ∧
      ∀ j, j < cs.length → clusters[j]? = some (clusterSum (clusterOf cs pixels j)) := by
  have hk0 : ¬ k < 0 := by
    have : 0 < cs.length := List.length_pos.mpr hcs
    omega
  obtain ⟨acc', h1, h2, h3⟩ := assignFold_spec cs k hk hcs pixels
    (List.replicate k.toNat ⟨0, 0, 0, 0⟩) (by rw [List.length_replicate, hk])
  unfold assignPixels
  rw [if_neg hk0]
  refine ⟨acc', h1, h2, ?_⟩
  intro j hj
  have := h3 j ⟨0, 0, 0, 0⟩ (by rw [List.getElem?_replicate, if_pos (by omega)])
  rw [this]
  simp

/-! ## Lemmas on the update pass -/

theorem recalcFold_spec (rnd : RandomSource) (pixels : List Color) (hpx : pixels ≠ [])
    (clusters : List Cluster) (centroids : List Slot) (pos : Nat)
    (hlen : centroids.length = clusters.length) (n : Nat) (hn : n ≤ clusters.length) :
    ∃ cs' pos', (List.range n).foldlM (recalcStep rnd pixels clusters) (centroids, pos)
        = .ok (cs', pos') ∧
      cs'.length = clusters.length ∧ pos ≤ pos' ∧
      (∀ j, n ≤ j → cs'[j]? = centroids[j]?) ∧
      ∀ j cl, j < n → clusters[j]? = some cl →
        (0 < cl.count ∧
          cs'[j]? = some (some (cl.r / cl.count, cl.g / cl.count, cl.b / cl.count))) ∨
        (cl.count = 0 ∧ ∃ q c, pos ≤ q ∧ q < pos' ∧ c ∈ pixels ∧
          pixels[randomIndex rnd q pixels.length]? = some c ∧ cs'[j]? = some (some c)) := by
  induction n with
  | zero =>
    exact ⟨centroids, pos, rfl, hlen, le_rfl, fun _ _ => rfl, fun j cl hj => absurd hj (by omega)⟩
  | succ n ih =>
    obtain ⟨cs1, pos1, hfold, hl1, hp1, hrest, hdone⟩ := ih (by omega)
    have hnl : n < clusters.length := by omega
    rw [List.range_succ, List.foldlM_append, hfold]
    simp only [Except.bind, bind, List.foldlM_cons, List.foldlM_nil, pure, Except.pure]
    unfold recalcStep
    rw [List.getElem?_eq_getElem hnl]
    simp only
    by_cases hc : clusters[n].count > 0
    · rw [if_pos hc]
      refine ⟨_, pos1, rfl, by rw [List.length_set, hl1], hp1, ?_, ?_⟩
      · intro j hj
        rw [List.getElem?_set, if_neg (by omega)]
        exact hrest j (by omega)
      · intro j cl hj hcl
        by_cases hjn : n = j
        · subst hjn
          rw [List.getElem?_eq_getElem hnl] at hcl
          have hcl := Option.some.inj hcl
          subst hcl
          left
          refine ⟨hc, ?_⟩
          rw [List.getElem?_set, if_pos rfl, if_pos (by omega)]
        · rw [List.getElem?_set, if_neg hjn]
          exact hdone j cl (by omega) hcl
    · rw [if_neg hc]
      obtain ⟨c, hcm, hcd⟩ := randomDraw_some rnd pos1 pixels hpx
      refine ⟨_, pos1 + 1, rfl, by rw [List.length_set, hl1], by omega, ?_, ?_⟩
      · intro j hj
        rw [List.getElem?_set, if_neg (by omega)]
        exact hrest j (by omega)
      · intro j cl hj hcl
        by_cases hjn : n = j
        · subst hjn
          rw [List.getElem?_eq_getElem hnl] at hcl
          have hcl := Option.some.inj hcl
          subst hcl
          right
          refine ⟨by omega, pos1, c, hp1, by omega, hcm, hcd, ?_⟩
          rw [List.getElem?_set, if_pos rfl, if_pos (by omega), hcd]
        · rw [List.getElem?_set, if_neg hjn]
          rcases hdone j cl (by omega) hcl with h | ⟨h0, q, c', hq1, hq2, hc1, hc2, hc3⟩
          · exact Or.inl h
          · exact Or.inr ⟨h0, q, c', hq1, by omega, hc1, hc2, hc3⟩

theorem exists_map_some (l : List Slot) (h : ∀ j, j < l.length → ∃ c, l[j]? = some (some c)) :
    ∃ cs : List Color, l = cs.map some ∧ cs.length = l.length := by
  induction l with
  | nil => exact ⟨[], rfl, rfl⟩
  | cons a l ih =>
    obtain ⟨cs, h1, h2⟩ := ih (fun j hj => by
      have := h (j + 1) (by simp only [List.length_cons]; omega)
      simpa using this)
    obtain ⟨c, hc⟩ := h 0 (by simp)
    simp only [List.getElem?_cons_zero, Option.some.injEq] at hc
    exact ⟨c :: cs, by rw [List.map_cons, ← h1, hc], by simp [h2]⟩

theorem clusterSum_count_pos (s : List Color) : 0 < (clusterSum s).count ↔ s ≠ [] := by
  unfold clusterSum
  exact List.length_pos

/-- One iteration on defined centroids: it succeeds, every new centroid is defined, and
each is the mean of its non-empty cluster or a drawn sample. -/
theorem kmeansIteration_spec (rnd : RandomSource) (pixels : List Color) (hpx : pixels ≠ [])
    (cs : List Color) (k : Int) (hk : k.toNat = cs.length) (hcs : cs ≠ []) (pos : Nat) :
    ∃ (cs' : List Color) (pos' : Nat),
      kmeansIteration rnd pixels k (cs.map some, pos) = .ok (cs'.map some, pos') ∧
      cs'.length = cs.length ∧ pos ≤ pos' ∧
      ∀ j, j < cs.length →
        (clusterOf cs pixels j ≠ [] ∧ cs'[j]? = some (meanColor (clusterOf cs pixels j))) ∨
        (clusterOf cs pixels j = [] ∧ ∃ q c, pos ≤ q ∧ q < pos' ∧ c ∈ pixels ∧
          pixels[randomIndex rnd q pixels.length]? = some c ∧ cs'[j]? = some c) := by
  obtain ⟨clusters, ha, hal, hacl⟩ := assignPixels_spec cs k hk hcs pixels
  obtain ⟨l, pos', hr, hrl, hrp, _, hrs⟩ := recalcFold_spec rnd pixels hpx clusters
    (cs.map some) pos (by rw [List.length_map, hal]) clusters.length le_rfl
  have hdef : ∀ j, j < l.length → ∃ c, l[j]? = some (some c) := by
    intro j hj
    rcases hrs j _ (by omega) (hacl j (by omega)) with ⟨_, h⟩ | ⟨_, q, c, _, _, _, _, h⟩
    · exact ⟨_, h⟩
    · exact ⟨_, h⟩
  obtain ⟨cs', hcs', hcl'⟩ := exists_map_some l hdef
  subst hcs'
  refine ⟨cs', pos', ?_, by omega, hrp, ?_⟩
  · unfold kmeansIteration
    simp only [ha]
    unfold recalcCentroids
    rw [hk, ← hal]
    exact hr
  · intro j hj
    have hget : ∀ c : Color, (cs'.map some)[j]? = some (some c) → cs'[j]? = some c := by
      intro c hc
      rw [List.getElem?_map] at hc
      cases h : cs'[j]? with
      | none => rw [h] at hc; exact absurd hc (by simp)
      | some c' =>
        rw [h] at hc
        simp only [Option.map_some', Option.some.injEq] at hc
        rw [hc]
    rcases hrs j _ (by omega) (hacl j hj) with ⟨hpos, h⟩ | ⟨h0, q, c, hq1, hq2, hc1, hc2, h⟩
    · left
      refine ⟨(clusterSum_count_pos _).mp hpos, hget _ ?_⟩
      rw [h]
      rfl
    · right
      refine ⟨?_, q, c, hq1, hq2, hc1, hc2, hget _ h⟩
      by_contra hne
      have := (clusterSum_count_pos _).mpr hne
      omega

/-! ## Lemmas on the initialisation and on the iteration loop -/

theorem initCentroids_spec (rnd : RandomSource) (pixels : List Color) (hpx : pixels ≠ [])
    (n pos : Nat) :
    ∃ cs : List Color, initCentroids rnd pixels n pos = cs.map some ∧ cs.length = n ∧
      ∀ c ∈ cs, c ∈ pixels := by
  induction n generalizing pos with
  | zero => exact ⟨[], rfl, rfl, fun c hc => absurd hc (List.not_mem_nil c)⟩
  | succ n ih =>
    obtain ⟨cs, h1, h2, h3⟩ := ih (pos + 1)
    obtain ⟨c, hc1, hc2⟩ := randomDraw_some rnd pos pixels hpx
    refine ⟨c :: cs, ?_, by simp [h2], ?_⟩
    · unfold initCentroids
      rw [hc2, h1]
      rfl
    · intro c' hc'
      rcases List.mem_cons.mp hc' with h | h
      · rw [h]; exact hc1
      · exact h3 c' h

theorem clusterOf_subset (cs pixels : List Color) (j : Nat) :
    ∀ p ∈ clusterOf cs pixels j, p ∈ pixels := by
  intro p hp
  unfold clusterOf at hp
  exact (List.mem_filter.mp hp).1

theorem kmeansLoop_inv (rnd : RandomSource) (pixels : List Color) (hpx : pixels ≠ [])
    (k : Int) (P : Color → Prop) (hP1 : ∀ c ∈ pixels, P c)
    (hP2 : ∀ s : List Color, s ≠ [] → (∀ p ∈ s, p ∈ pixels) → P (meanColor s))
    (n : Nat) (cs : List Color) (hk : k.toNat = cs.length) (hcs : cs ≠ [])
    (hall : ∀ c ∈ cs, P c) (pos : Nat) :
    ∃ (cs' : List Color) (pos' : Nat),
      kmeansLoop rnd pixels k n (cs.map some, pos) = .ok (cs'.map some, pos') ∧
      cs'.length = cs.length ∧ pos ≤ pos' ∧ ∀ c ∈ cs', P c := by
  induction n generalizing cs pos with
  | zero => exact ⟨cs, pos, rfl, rfl, le_rfl, hall⟩
  | succ n ih =>
    obtain ⟨cs1, pos1, h1, h2, h3, h4⟩ := kmeansIteration_spec rnd pixels hpx cs k hk hcs pos
    have hcs1 : cs1 ≠ [] := by
      intro h
      rw [h] at h2
      exact hcs (List.length_eq_zero.mp h2.symm)
    have hall1 : ∀ c ∈ cs1, P c := by
      intro c hc
      obtain ⟨j, hj, rfl⟩ := List.getElem_of_mem hc
      rcases h4 j (by omega) with ⟨hne, hm⟩ | ⟨_, q, c', _, _, hc1, _, hm⟩
      · rw [List.getElem?_eq_getElem hj] at hm
        rw [Option.some.inj hm]
        exact hP2 _ hne (clusterOf_subset cs pixels j)
      · rw [List.getElem?_eq_getElem hj] at hm
        rw [Option.some.inj hm]
        exact hP1 c' hc1
    obtain ⟨cs2, pos2, g1, g2, g3, g4⟩ := ih cs1 (by rw [h2]; exact hk) hcs1 hall1 pos1
    refine ⟨cs2, pos2, ?_, by omega, by omega, g4⟩
    unfold kmeansLoop
    simp only [h1]
    exact g1

theorem kmeansLoop_succ_last (rnd : RandomSource) (pixels : List Color) (k : Int) (n : Nat)
    (st : List Slot × Nat) :
    kmeansLoop rnd pixels k (n + 1) st =
      match kmeansLoop rnd pixels k n st with
      | .error e => .error e
      | .ok st' => kmeansIteration rnd pixels k st' := by
  induction n generalizing st with
  | zero =>
    simp only [kmeansLoop]
    cases kmeansIteration rnd pixels k st <;> rfl
  | succ n ih =>
    rw [kmeansLoop]
    cases h : kmeansIteration rnd pixels k st with
    | error e => simp only [kmeansLoop, h]
    | ok st1 =>
      simp only
      rw [ih st1]
      conv_rhs => rw [kmeansLoop]
      simp only [h]

theorem sum_bounds (s : List ℚ) (lo hi : ℚ) (h : ∀ x ∈ s, lo ≤ x ∧ x ≤ hi) :
    (s.length : ℚ) * lo ≤ s.sum ∧ s.sum ≤ (s.length : ℚ) * hi := by
  induction s with
  | nil => simp
  | cons a s ih =>
    obtain ⟨h1, h2⟩ := ih (fun x hx => h x (List.mem_cons_of_mem a hx))
    obtain ⟨h3, h4⟩ := h a (List.mem_cons_self a s)
    simp only [List.length_cons, List.sum_cons, Nat.cast_add, Nat.cast_one]
    constructor <;> nlinarith

theorem mean_bounds (s : List ℚ) (hs : s ≠ []) (lo hi : ℚ) (h : ∀ x ∈ s, lo ≤ x ∧ x ≤ hi) :
    lo ≤ s.sum / s.length ∧ s.sum / s.length ≤ hi := by
  obtain ⟨h1, h2⟩ := sum_bounds s lo hi h
  have hl : (0 : ℚ) < (s.length : ℚ) := by exact_mod_cast List.length_pos.mpr hs
  constructor
  · rw [le_div_iff₀ hl]; linarith
  · rw [div_le_iff₀ hl]; linarith

/-! ## Lemmas on the mapping pass -/

theorem chunk4_induction (P : List Nat → Prop)
    (hshort : ∀ l : List Nat, l.length < 4 → P l)
    (hchunk : ∀ r g b a rest, P rest → P (r :: g :: b :: a :: rest)) : ∀ l, P l
  | [] => hshort _ (by simp)
  | [_] => hshort _ (by simp)
  | [_, _] => hshort _ (by simp)
  | [_, _, _] => hshort _ (by simp)
  | r :: g :: b :: a :: rest => hchunk r g b a rest (chunk4_induction P hshort hchunk rest)

theorem mapPixels_short (centroids : List Slot) (k : Int) (l : List Nat) (h : l.length < 4) :
    mapPixels centroids k l = .ok l := by
  match l, h with
  | [], _ => rfl
  | [_], _ => rfl
  | [_, _], _ => rfl
  | [_, _, _], _ => rfl
  | _ :: _ :: _ :: _ :: _, h => exact absurd h (by simp only [List.length_cons]; omega)

theorem mapNearest_short (cs : List Color) (l : List Nat) (h : l.length < 4) :
    mapNearest cs l = l := by
  match l, h with
  | [], _ => rfl
  | [_], _ => rfl
  | [_, _], _ => rfl
  | [_, _, _], _ => rfl
  | _ :: _ :: _ :: _ :: _, h => exact absurd h (by simp only [List.length_cons]; omega)

theorem collectPixels_short (l : List Nat) (h : l.length < 4) : collectPixels l = [] := by
  match l, h with
  | [], _ => rfl
  | [_], _ => rfl
  | [_, _], _ => rfl
  | [_, _, _], _ => rfl
  | _ :: _ :: _ :: _ :: _, h => exact absurd h (by simp only [List.length_cons]; omega)

theorem opaqueColors_short (l : List Nat) (h : l.length < 4) : opaqueColors l = [] := by
  match l, h with
  | [], _ => rfl
  | [_], _ => rfl
  | [_, _], _ => rfl
  | [_, _, _], _ => rfl
  | _ :: _ :: _ :: _ :: _, h => exact absurd h (by simp only [List.length_cons]; omega)

theorem mapPixels_eq (cs : List Color) (k : Int) (hk : k.toNat = cs.length) (hcs : cs ≠ [])
    (data : List Nat) : mapPixels (cs.map some) k data = .ok (mapNearest cs data) := by
  induction data using chunk4_induction with
  | hshort l h => rw [mapPixels_short _ _ _ h, mapNearest_short _ _ h]
  | hchunk r g b a rest ih =>
    rw [mapPixels, mapNearest, ih, bestColor_eq cs k _ hk]
    have hlt := firstNearest_lt cs ((r : ℚ), (g : ℚ), (b : ℚ)) hcs
    rw [List.getElem?_eq_getElem hlt]
    split_ifs <;> rfl

theorem mapNearest_length (cs : List Color) (data : List Nat) :
    (mapNearest cs data).length = data.length := by
  induction data using chunk4_induction with
  | hshort l h => rw [mapNearest_short _ _ h]
  | hchunk r g b a rest ih =>
    rw [mapNearest]
    split_ifs
    · simp [ih]
    · split <;> simp [ih]

theorem pixelAt_zero (r g b a : Nat) (rest : List Nat) :
    pixelAt (r :: g :: b :: a :: rest) 0 = some (r, g, b, a) := by
  simp [pixelAt]

theorem getElem?_chunk_succ (r g b a : Nat) (rest : List Nat) (i c : Nat) :
    (r :: g :: b :: a :: rest)[4 * (i + 1) + c]? = rest[4 * i + c]? := by
  have e : 4 * (i + 1) + c = 4 * i + c + 1 + 1 + 1 + 1 := by ring
  rw [e]
  simp only [List.getElem?_cons_succ]

theorem pixelAt_succ (r g b a : Nat) (rest : List Nat) (i : Nat) :
    pixelAt (r :: g :: b :: a :: rest) (i + 1) = pixelAt rest i := by
  unfold pixelAt
  have e0 := getElem?_chunk_succ r g b a rest i 0
  rw [Nat.add_zero] at e0
  rw [e0, getElem?_chunk_succ, getElem?_chunk_succ, getElem?_chunk_succ]
  rfl

theorem pixelAt_short (l : List Nat) (h : l.length < 4) (i : Nat) : pixelAt l i = none := by
  unfold pixelAt
  have : l[4 * i + 3]? = none := List.getElem?_eq_none (by omega)
  rw [this]
  split
  · rename_i h3
    exact absurd h3 (by simp)
  · rfl

/-- What the mapping pass does to pixel number `i`. -/
theorem mapNearest_pixelAt (cs : List Color) (hcs : cs ≠ []) (data : List Nat) (i : Nat)
    (r g b a : Nat) (h : pixelAt data i = some (r, g, b, a)) :
    (a < 128 → pixelAt (mapNearest cs data) i = some (r, g, b, a)) ∧
    (128 ≤ a → ∃ c, cs[firstNearest cs ((r : ℚ), (g : ℚ), (b : ℚ))]? = some c ∧
      pixelAt (mapNearest cs data) i =
        some (toUint8Clamp c.1, toUint8Clamp c.2.1, toUint8Clamp c.2.2, a)) := by
  induction data using chunk4_induction generalizing i with
  | hshort l hl =>
    rw [pixelAt_short l hl] at h
    exact absurd h (by simp)
  | hchunk r' g' b' a' rest ih =>
    have hlt := firstNearest_lt cs ((r' : ℚ), (g' : ℚ), (b' : ℚ)) hcs
    cases i with
    | zero =>
      rw [pixelAt_zero] at h
      simp only [Option.some.injEq, Prod.mk.injEq] at h
      obtain ⟨rfl, rfl, rfl, rfl⟩ := h
      rw [mapNearest, List.getElem?_eq_getElem hlt]
      constructor
      · intro ha
        rw [if_pos ha, pixelAt_zero]
      · intro ha
        rw [if_neg (by omega)]
        exact ⟨_, rfl, pixelAt_zero _ _ _ _ _⟩
    | succ i =>
      rw [pixelAt_succ] at h
      have := ih i h
      rw [mapNearest, List.getElem?_eq_getElem hlt]
      split_ifs
      · rw [pixelAt_succ]; exact this
      · simp only [pixelAt_succ]; exact this

theorem opaqueColors_mapNearest (cs : List Color) (hcs : cs ≠ []) (data : List Nat) :
    ∀ q ∈ opaqueColors (mapNearest cs data), q ∈ cs.map storeColor := by
  induction data using chunk4_induction with
  | hshort l h =>
    rw [mapNearest_short _ _ h, opaqueColors_short _ h]
    intro q hq
    exact absurd hq (List.not_mem_nil q)
  | hchunk r g b a rest ih =>
    have hlt := firstNearest_lt cs ((r : ℚ), (g : ℚ), (b : ℚ)) hcs
    intro q hq
    rw [mapNearest, List.getElem?_eq_getElem hlt] at hq
    by_cases ha : a < 128
    · rw [if_pos ha, opaqueColors, if_pos ha] at hq
      exact ih q hq
    · rw [if_neg ha] at hq
      simp only [opaqueColors, if_neg ha] at hq
      rcases List.mem_cons.mp hq with h | h
      · rw [h]
        exact List.mem_map.mpr ⟨_, List.getElem_mem hlt, rfl⟩
      · exact ih q h

/-! ## Lemmas on quantizeImage as a whole -/

theorem fitCentroids_inv (rnd : RandomSource) (pos : Nat) (pixels : List Color)
    (hpx : pixels ≠ []) (k : Int) (hk : 1 ≤ k) (P : Color → Prop)
    (hP1 : ∀ c ∈ pixels, P c)
    (hP2 : ∀ s : List Color, s ≠ [] → (∀ p ∈ s, p ∈ pixels) → P (meanColor s)) :
    ∃ (cs : List Color) (pos' : Nat),
      fitCentroids rnd pos pixels k = .ok (cs.map some, pos') ∧
      cs.length = k.toNat ∧ cs ≠ [] ∧ pos ≤ pos' ∧ ∀ c ∈ cs, P c := by
  obtain ⟨cs0, h1, h2, h3⟩ := initCentroids_spec rnd pixels hpx k.toNat pos
  have hcs0 : cs0 ≠ [] := by
    intro h
    rw [h] at h2
    simp only [List.length_nil] at h2
    omega
  obtain ⟨cs, pos', g1, g2, g3, g4⟩ := kmeansLoop_inv rnd pixels hpx k P hP1 hP2 iterations
    cs0 h2.symm hcs0 (fun c hc => hP1 c (h3 c hc)) (pos + k.toNat)
  refine ⟨cs, pos', ?_, by omega, ?_, by omega, g4⟩
  · unfold fitCentroids
    rw [h1]
    exact g1
  · intro h
    rw [h] at g2
    exact hcs0 (List.length_eq_zero.mp g2.symm)

theorem fitCentroids_ok (rnd : RandomSource) (pos : Nat) (pixels : List Color)
    (hpx : pixels ≠ []) (k : Int) (hk : 1 ≤ k) :
    ∃ (cs : List Color) (pos' : Nat),
      fitCentroids rnd pos pixels k = .ok (cs.map some, pos') ∧
      cs.length = k.toNat ∧ cs ≠ [] := by
  obtain ⟨cs, pos', h1, h2, h3, _, _⟩ := fitCentroids_inv rnd pos pixels hpx k hk
    (fun _ => True) (fun _ _ => trivial) (fun _ _ _ => trivial)
  exact ⟨cs, pos', h1, h2, h3⟩

theorem quantizeImage_of_fit (rnd : RandomSource) (pos : Nat) (img : ImageData) (k : Int)
    (hpx : collectPixels img.data ≠ []) (cs : List Color) (pos' : Nat)
    (hfit : fitCentroids rnd pos (collectPixels img.data) k = .ok (cs.map some, pos'))
    (hlen : cs.length = k.toNat) (hcs : cs ≠ []) :
    quantizeImage rnd pos img k = .ok ({ img with data := mapNearest cs img.data }, pos') := by
  unfold quantizeImage
  have hl : ¬ (collectPixels img.data).length = 0 := fun h => hpx (List.length_eq_zero.mp h)
  simp only [hl, if_false, hfit, mapPixels_eq cs k hlen.symm hcs]

theorem quantizeImage_no_sample (rnd : RandomSource) (pos : Nat) (img : ImageData) (k : Int)
    (hpx : collectPixels img.data = []) : quantizeImage rnd pos img k = .ok (img, pos) := by
  unfold quantizeImage
  simp only [hpx, List.length_nil, if_true]

theorem kmeansLoop_error (rnd : RandomSource) (pixels : List Color) (k : Int) (n : Nat)
    (st : List Slot × Nat) (e : JsError) (h : kmeansIteration rnd pixels k st = .error e) :
    kmeansLoop rnd pixels k (n + 1) st = .error e := by
  rw [kmeansLoop]
  simp only [h]

theorem foldlM_error (f : List Cluster → Color → Except JsError (List Cluster)) (e : JsError)
    (acc : List Cluster) (p : Color) (ps : List Color) (h : f acc p = .error e) :
    (p :: ps).foldlM f acc = .error e := by
  rw [List.foldlM_cons, h]
  rfl

/-- A palette size below 1 with at least one sample: the first iteration throws. -/
theorem fitCentroids_error (rnd : RandomSource) (pos : Nat) (pixels : List Color)
    (hpx : pixels ≠ []) (k : Int) (hk : k < 1) :
    fitCentroids rnd pos pixels k =
      .error (if k < 0 then JsError.rangeError else JsError.typeError) := by
  unfold fitCentroids iterations
  apply kmeansLoop_error
  unfold kmeansIteration
  have hk0 : k.toNat = 0 := by omega
  by_cases hneg : k < 0
  · simp only [assignPixels, hneg, if_true]
  · obtain ⟨p, ps, rfl⟩ := List.exists_cons_of_ne_nil hpx
    have hstep : assignStep (initCentroids rnd (p :: ps) k.toNat pos, pos + k.toNat).1 k
        (List.replicate k.toNat ⟨0, 0, 0, 0⟩) p = .error JsError.typeError := by
      unfold assignStep closestIndex
      rw [hk0]
      rfl
    simp only [assignPixels, hneg, if_false, foldlM_error _ _ _ _ _ hstep]

theorem quantizeImage_error (rnd : RandomSource) (pos : Nat) (img : ImageData) (k : Int)
    (hpx : collectPixels img.data ≠ []) (hk : k < 1) :
    quantizeImage rnd pos img k =
      .error (if k < 0 then JsError.rangeError else JsError.typeError) := by
  unfold quantizeImage
  have hl : ¬ (collectPixels img.data).length = 0 := fun h => hpx (List.length_eq_zero.mp h)
  simp only [hl, if_false, fitCentroids_error rnd pos _ hpx k hk]

/-- For a palette size of at least 1, quantizeImage returns: with no sample the input
itself, otherwise the mapping of the input by the fitted centroids. -/
theorem quantizeImage_ok (rnd : RandomSource) (pos : Nat) (img : ImageData) (k : Int)
    (hk : 1 ≤ k) :
    (collectPixels img.data = [] ∧ quantizeImage rnd pos img k = .ok (img, pos)) ∨
    (collectPixels img.data ≠ [] ∧ ∃ (cs : List Color) (pos' : Nat),
      fitCentroids rnd pos (collectPixels img.data) k = .ok (cs.map some, pos') ∧
      cs.length = k.toNat ∧ cs ≠ [] ∧
      quantizeImage rnd pos img k
        = .ok ({ img with data := mapNearest cs img.data }, pos')) := by
  by_cases hpx : collectPixels img.data = []
  · exact Or.inl ⟨hpx, quantizeImage_no_sample rnd pos img k hpx⟩
  · obtain ⟨cs, pos', h1, h2, h3⟩ := fitCentroids_ok rnd pos _ hpx k hk
    exact Or.inr ⟨hpx, cs, pos', h1, h2, h3,
      quantizeImage_of_fit rnd pos img k hpx cs pos' h1 h2 h3⟩

/-! ## Samples and pixels -/

theorem collectPixels_eq_map (data : List Nat) :
    collectPixels data =
      (opaqueColors data).map (fun q => ((q.1 : ℚ), (q.2.1 : ℚ), (q.2.2 : ℚ))) := by
  induction data using chunk4_induction with
  | hshort l h => rw [collectPixels_short _ h, opaqueColors_short _ h]; rfl
  | hchunk r g b a rest ih =>
    rw [collectPixels, opaqueColors]
    split_ifs
    · exact ih
    · rw [List.map_cons, ih]

theorem mem_opaqueColors_iff (data : List Nat) (q : Nat × Nat × Nat) :
    q ∈ opaqueColors data ↔ ∃ i a, pixelAt data i = some (q.1, q.2.1, q.2.2, a) ∧ 128 ≤ a := by
  induction data using chunk4_induction with
  | hshort l h =>
    rw [opaqueColors_short _ h]
    constructor
    · intro hq; exact absurd hq (List.not_mem_nil q)
    · rintro ⟨i, a, hp, _⟩
      rw [pixelAt_short l h] at hp
      exact absurd hp (by simp)
  | hchunk r g b a rest ih =>
    rw [opaqueColors]
    constructor
    · intro hq
      by_cases ha : a < 128
      · rw [if_pos ha] at hq
        obtain ⟨i, a', hp, ha'⟩ := ih.mp hq
        exact ⟨i + 1, a', by rw [pixelAt_succ]; exact hp, ha'⟩
      · rw [if_neg ha] at hq
        rcases List.mem_cons.mp hq with h | h
        · exact ⟨0, a, by rw [pixelAt_zero, h], by omega⟩
        · obtain ⟨i, a', hp, ha'⟩ := ih.mp h
          exact ⟨i + 1, a', by rw [pixelAt_succ]; exact hp, ha'⟩
    · rintro ⟨i, a', hp, ha'⟩
      cases i with
      | zero =>
        rw [pixelAt_zero] at hp
        simp only [Option.some.injEq, Prod.mk.injEq] at hp
        obtain ⟨h1, h2, h3, h4⟩ := hp
        subst h4
        rw [if_neg (by omega)]
        exact List.mem_cons.mpr (Or.inl (by rw [h1, h2, h3]))
      | succ i =>
        rw [pixelAt_succ] at hp
        have := ih.mpr ⟨i, a', hp, ha'⟩
        split_ifs
        · exact this
        · exact List.mem_cons_of_mem _ this

theorem mem_collectPixels_of_pixelAt (data : List Nat) (i r g b a : Nat)
    (h : pixelAt data i = some (r, g, b, a)) (ha : 128 ≤ a) :
    ((r : ℚ), (g : ℚ), (b : ℚ)) ∈ collectPixels data := by
  rw [collectPixels_eq_map]
  exact List.mem_map.mpr ⟨(r, g, b), (mem_opaqueColors_iff data (r, g, b)).mpr ⟨i, a, h, ha⟩, rfl⟩

theorem collectPixels_eq_nil_iff (data : List Nat) :
    collectPixels data = [] ↔ ∀ i r g b a, pixelAt data i = some (r, g, b, a) → a < 128 := by
  constructor
  · intro h i r g b a hp
    by_contra ha
    have := mem_collectPixels_of_pixelAt data i r g b a hp (by omega)
    rw [h] at this
    exact absurd this (List.not_mem_nil _)
  · intro h
    rw [collectPixels_eq_map]
    rw [List.map_eq_nil_iff]
    by_contra hne
    obtain ⟨q, hq⟩ := List.exists_mem_of_ne_nil _ hne
    obtain ⟨i, a, hp, ha⟩ := (mem_opaqueColors_iff data q).mp hq
    have := h i _ _ _ a hp
    omega

/-! ## Further lemmas for the claims -/

theorem opaqueColors_eq_nil_of_collect (data : List Nat) (h : collectPixels data = []) :
    opaqueColors data = [] := by
  rw [collectPixels_eq_map] at h
  exact List.map_eq_nil_iff.mp h

theorem card_le_of_subset_map (l : List (Nat × Nat × Nat)) (cs : List Color)
    (h : ∀ q ∈ l, q ∈ cs.map storeColor) : l.toFinset.card ≤ cs.length := by
  have hsub : l.toFinset ⊆ (cs.map storeColor).toFinset := by
    intro q hq
    rw [List.mem_toFinset] at hq ⊢
    exact h q hq
  calc l.toFinset.card ≤ (cs.map storeColor).toFinset.card := Finset.card_le_card hsub
    _ ≤ (cs.map storeColor).length := List.toFinset_card_le _
    _ = cs.length := List.length_map _ _

theorem quantizeImage_cases (rnd : RandomSource) (pos : Nat) (img : ImageData) (k : Int)
    (out : ImageData) (pos' : Nat) (h : quantizeImage rnd pos img k = .ok (out, pos')) :
    (collectPixels img.data = [] ∧ out = img ∧ pos' = pos) ∨
    (collectPixels img.data ≠ [] ∧ 1 ≤ k ∧ ∃ cs : List Color,
      fitCentroids rnd pos (collectPixels img.data) k = .ok (cs.map some, pos') ∧
      cs.length = k.toNat ∧ cs ≠ [] ∧ out = { img with data := mapNearest cs img.data }) := by
  by_cases hpx : collectPixels img.data = []
  · rw [quantizeImage_no_sample rnd pos img k hpx] at h
    injection h with h
    injection h with h1 h2
    exact Or.inl ⟨hpx, h1.symm, h2.symm⟩
  · by_cases hk : 1 ≤ k
    · rcases quantizeImage_ok rnd pos img k hk with ⟨h0, _⟩ | ⟨_, cs, p1, h1, h2, h3, h4⟩
      · exact absurd h0 hpx
      · rw [h4] at h
        injection h with h
        injection h with h5 h6
        subst h6
        exact Or.inr ⟨hpx, hk, cs, h1, h2, h3, h5.symm⟩
    · rw [quantizeImage_error rnd pos img k hpx (by omega)] at h
      exact absurd h (by simp)

theorem minOf_le (l : List ℚ) (x : ℚ) (h : x ∈ l) : minOf l ≤ x := by
  induction l with
  | nil => exact absurd h (List.not_mem_nil x)
  | cons a l ih =>
    cases l with
    | nil =>
      rw [List.mem_singleton] at h
      rw [h]
      exact le_refl a
    | cons b l =>
      rw [minOf]
      rcases List.mem_cons.mp h with h | h
      · rw [h]; exact min_le_left _ _
      · exact le_trans (min_le_right _ _) (ih h)

theorem le_maxOf (l : List ℚ) (x : ℚ) (h : x ∈ l) : x ≤ maxOf l := by
  induction l with
  | nil => exact absurd h (List.not_mem_nil x)
  | cons a l ih =>
    cases l with
    | nil =>
      rw [List.mem_singleton] at h
      rw [h]
      exact le_refl a
    | cons b l =>
      rw [maxOf]
      rcases List.mem_cons.mp h with h | h
      · rw [h]; exact le_max_left _ _
      · exact le_trans (ih h) (le_max_right _ _)

theorem minOf_mem (l : List ℚ) (h : l ≠ []) : minOf l ∈ l := by
  induction l with
  | nil => exact absurd rfl h
  | cons a l ih =>
    cases l with
    | nil => exact List.mem_singleton.mpr rfl
    | cons b l =>
      rw [minOf]
      rcases min_choice a (minOf (b :: l)) with h1 | h1
      · rw [h1]; exact List.mem_cons_self _ _
      · rw [h1]; exact List.mem_cons_of_mem _ (ih (by simp))

theorem maxOf_mem (l : List ℚ) (h : l ≠ []) : maxOf l ∈ l := by
  induction l with
  | nil => exact absurd rfl h
  | cons a l ih =>
    cases l with
    | nil => exact List.mem_singleton.mpr rfl
    | cons b l =>
      rw [maxOf]
      rcases max_choice a (maxOf (b :: l)) with h1 | h1
      · rw [h1]; exact List.mem_cons_self _ _
      · rw [h1]; exact List.mem_cons_of_mem _ (ih (by simp))

theorem inBox_of_mem (pixels : List Color) (c : Color) (h : c ∈ pixels) :
    InBox (minColor pixels) (maxColor pixels) c := by
  unfold InBox minColor maxColor
  refine ⟨⟨minOf_le _ _ ?_, le_maxOf _ _ ?_⟩, ⟨minOf_le _ _ ?_, le_maxOf _ _ ?_⟩,
    ⟨minOf_le _ _ ?_, le_maxOf _ _ ?_⟩⟩
  all_goals exact List.mem_map.mpr ⟨c, h, rfl⟩

theorem inBox_mean (lo hi : Color) (s : List Color) (hs : s ≠ [])
    (h : ∀ p ∈ s, InBox lo hi p) : InBox lo hi (meanColor s) := by
  unfold InBox meanColor
  have hl : ∀ f : Color → ℚ, (s.map f).length = s.length := fun f => List.length_map _ _
  have hne : ∀ f : Color → ℚ, s.map f ≠ [] := fun f hf => hs (List.map_eq_nil_iff.mp hf)
  refine ⟨?_, ?_, ?_⟩
  · have := mean_bounds (s.map (fun p => p.1)) (hne _) lo.1 hi.1 (by
      intro x hx
      obtain ⟨p, hp, rfl⟩ := List.mem_map.mp hx
      exact (h p hp).1)
    rw [hl] at this
    exact this
  · have := mean_bounds (s.map (fun p => p.2.1)) (hne _) lo.2.1 hi.2.1 (by
      intro x hx
      obtain ⟨p, hp, rfl⟩ := List.mem_map.mp hx
      exact (h p hp).2.1)
    rw [hl] at this
    exact this
  · have := mean_bounds (s.map (fun p => p.2.2)) (hne _) lo.2.2 hi.2.2 (by
      intro x hx
      obtain ⟨p, hp, rfl⟩ := List.mem_map.mp hx
      exact (h p hp).2.2)
    rw [hl] at this
    exact this

theorem mem_of_getElem?_eq_some {l : List Nat} {i v : Nat} (h : l[i]? = some v) : v ∈ l := by
  obtain ⟨hlt, he⟩ := List.getElem?_eq_some_iff.mp h
  rw [← he]
  exact List.getElem_mem hlt

theorem mem_of_getElem?_eq_some_color {l : List Color} {i : Nat} {v : Color}
    (h : l[i]? = some v) : v ∈ l := by
  obtain ⟨hlt, he⟩ := List.getElem?_eq_some_iff.mp h
  rw [← he]
  exact List.getElem_mem hlt

theorem pixelAt_mem (data : List Nat) (i r g b a : Nat)
    (h : pixelAt data i = some (r, g, b, a)) : r ∈ data ∧ g ∈ data ∧ b ∈ data ∧ a ∈ data := by
  unfold pixelAt at h
  split at h
  · rename_i r' g' b' a' h0 h1 h2 h3
    simp only [Option.some.injEq, Prod.mk.injEq] at h
    obtain ⟨rfl, rfl, rfl, rfl⟩ := h
    exact ⟨mem_of_getElem?_eq_some h0, mem_of_getElem?_eq_some h1, mem_of_getElem?_eq_some h2,
      mem_of_getElem?_eq_some h3⟩
  · exact absurd h (by simp)

/-- Every sample is a triple of bytes of the buffer. -/
theorem collectPixels_bytes (data : List Nat) (p : Color) (h : p ∈ collectPixels data) :
    ∃ r g b : Nat, p = ((r : ℚ), (g : ℚ), (b : ℚ)) ∧ r ∈ data ∧ g ∈ data ∧ b ∈ data := by
  rw [collectPixels_eq_map] at h
  obtain ⟨q, hq, rfl⟩ := List.mem_map.mp h
  obtain ⟨i, a, hp, _⟩ := (mem_opaqueColors_iff data q).mp hq
  obtain ⟨h1, h2, h3, _⟩ := pixelAt_mem data i _ _ _ a hp
  exact ⟨q.1, q.2.1, q.2.2, rfl, h1, h2, h3⟩

/-- The per-channel minimum and maximum of the samples are bytes of the buffer. -/
theorem minmax_bytes (data : List Nat) (hpx : collectPixels data ≠ [])
    (hbytes : ∀ v ∈ data, v ≤ 255) :
    ∃ lo hi : Nat × Nat × Nat,
      minColor (collectPixels data) = ((lo.1 : ℚ), (lo.2.1 : ℚ), (lo.2.2 : ℚ)) ∧
      maxColor (collectPixels data) = ((hi.1 : ℚ), (hi.2.1 : ℚ), (hi.2.2 : ℚ)) ∧
      hi.1 ≤ 255 ∧ hi.2.1 ≤ 255 ∧ hi.2.2 ≤ 255 := by
  have key : ∀ f : Color → ℚ, (∀ r g b : Nat, f ((r : ℚ), (g : ℚ), (b : ℚ)) = (r : ℚ) ∨
      f ((r : ℚ), (g : ℚ), (b : ℚ)) = (g : ℚ) ∨ f ((r : ℚ), (g : ℚ), (b : ℚ)) = (b : ℚ)) →
      ∀ x ∈ (collectPixels data).map f, ∃ n : Nat, x = (n : ℚ) ∧ n ≤ 255 := by
    intro f hf x hx
    obtain ⟨p, hp, rfl⟩ := List.mem_map.mp hx
    obtain ⟨r, g, b, rfl, hr, hg, hb⟩ := collectPixels_bytes data p hp
    rcases hf r g b with h | h | h
    · exact ⟨r, h, hbytes r hr⟩
    · exact ⟨g, h, hbytes g hg⟩
    · exact ⟨b, h, hbytes b hb⟩
  have hne : ∀ f : Color → ℚ, (collectPixels data).map f ≠ [] :=
    fun f hf => hpx (List.map_eq_nil_iff.mp hf)
  obtain ⟨l1, e1, _⟩ := key (fun p => p.1) (fun _ _ _ => Or.inl rfl) _ (minOf_mem _ (hne _))
  obtain ⟨l2, e2, _⟩ := key (fun p => p.2.1) (fun _ _ _ => Or.inr (Or.inl rfl)) _
    (minOf_mem _ (hne _))
  obtain ⟨l3, e3, _⟩ := key (fun p => p.2.2) (fun _ _ _ => Or.inr (Or.inr rfl)) _
    (minOf_mem _ (hne _))
  obtain ⟨u1, f1, b1⟩ := key (fun p => p.1) (fun _ _ _ => Or.inl rfl) _ (maxOf_mem _ (hne _))
  obtain ⟨u2, f2, b2⟩ := key (fun p => p.2.1) (fun _ _ _ => Or.inr (Or.inl rfl)) _
    (maxOf_mem _ (hne _))
  obtain ⟨u3, f3, b3⟩ := key (fun p => p.2.2) (fun _ _ _ => Or.inr (Or.inr rfl)) _
    (maxOf_mem _ (hne _))
  refine ⟨(l1, l2, l3), (u1, u2, u3), ?_, ?_, b1, b2, b3⟩
  · unfold minColor
    rw [e1, e2, e3]
  · unfold maxColor
    rw [f1, f2, f3]

/-! ## Buffers that the mapping pass leaves unchanged -/

theorem sqDist_nonneg (p c : Color) : 0 ≤ sqDist p c := by
  unfold sqDist
  positivity

theorem sqDist_self (p : Color) : sqDist p p = 0 := by
  unfold sqDist
  ring

theorem eq_of_sqDist_eq_zero (p c : Color) (h : sqDist p c = 0) : c = p := by
  unfold sqDist at h
  have n1 := sq_nonneg (p.1 - c.1)
  have n2 := sq_nonneg (p.2.1 - c.2.1)
  have n3 := sq_nonneg (p.2.2 - c.2.2)
  have h1 : (p.1 - c.1) ^ 2 = 0 := by linarith
  have h2 : (p.2.1 - c.2.1) ^ 2 = 0 := by linarith
  have h3 : (p.2.2 - c.2.2) ^ 2 = 0 := by linarith
  have e1 : c.1 = p.1 := by
    have := pow_eq_zero_iff (two_ne_zero) |>.mp h1
    linarith
  have e2 : c.2.1 = p.2.1 := by
    have := pow_eq_zero_iff (two_ne_zero) |>.mp h2
    linarith
  have e3 : c.2.2 = p.2.2 := by
    have := pow_eq_zero_iff (two_ne_zero) |>.mp h3
    linarith
  exact Prod.ext e1 (Prod.ext e2 e3)

/-- A sample that is itself a centroid is its own nearest centroid. -/
theorem nearest_of_mem (cs : List Color) (p : Color) (h : p ∈ cs) :
    cs[firstNearest cs p]? = some p := by
  have hcs : cs ≠ [] := List.ne_nil_of_mem h
  obtain ⟨hj, hmin, _⟩ := firstNearest_spec cs p hcs
  obtain ⟨i, hi, he⟩ := List.getElem_of_mem h
  have h0 : sqDist p cs[firstNearest cs p] ≤ 0 := by
    have := hmin i hi
    rw [he, sqDist_self] at this
    exact this
  have := eq_of_sqDist_eq_zero p _ (le_antisymm h0 (sqDist_nonneg _ _))
  rw [List.getElem?_eq_getElem hj, this]

theorem mapNearest_eq_self (cs : List Color) (data : List Nat)
    (h : ∀ i r g b a, pixelAt data i = some (r, g, b, a) → 128 ≤ a →
      ((r : ℚ), (g : ℚ), (b : ℚ)) ∈ cs ∧ r ≤ 255 ∧ g ≤ 255 ∧ b ≤ 255) :
    mapNearest cs data = data := by
  induction data using chunk4_induction with
  | hshort l hl => exact mapNearest_short cs l hl
  | hchunk r g b a rest ih =>
    have ih' := ih (fun i r' g' b' a' hp ha => h (i + 1) r' g' b' a'
      (by rw [pixelAt_succ]; exact hp) ha)
    rw [mapNearest, ih']
    by_cases ha : a < 128
    · rw [if_pos ha]
    · rw [if_neg ha]
      obtain ⟨hm, hr, hg, hb⟩ := h 0 r g b a (pixelAt_zero r g b a rest) (by omega)
      rw [nearest_of_mem cs _ hm]
      simp only [toUint8Clamp_natCast r hr, toUint8Clamp_natCast g hg,
        toUint8Clamp_natCast b hb]

theorem pixelAt_isSome_of_lt (data : List Nat) (i : Nat) (h : 4 * i + 3 < data.length) :
    ∃ r g b a, pixelAt data i = some (r, g, b, a) := by
  unfold pixelAt
  rw [List.getElem?_eq_getElem (show 4 * i < data.length by omega),
    List.getElem?_eq_getElem (show 4 * i + 1 < data.length by omega),
    List.getElem?_eq_getElem (show 4 * i + 2 < data.length by omega),
    List.getElem?_eq_getElem h]
  exact ⟨_, _, _, _, rfl⟩

theorem lt_of_pixelAt (data : List Nat) (i r g b a : Nat)
    (h : pixelAt data i = some (r, g, b, a)) : 4 * i + 3 < data.length := by
  by_contra hlt
  unfold pixelAt at h
  rw [List.getElem?_eq_none (show data.length ≤ 4 * i + 3 by omega)] at h
  split at h
  · rename_i h3
    exact absurd h3 (by simp)
  · exact absurd h (by simp)

/-- The pixels of alpha at least 128 of a mapped buffer hold stored centroid colours. -/
theorem mapNearest_visible (cs : List Color) (hcs : cs ≠ []) (data : List Nat)
    (i r g b a : Nat) (h : pixelAt (mapNearest cs data) i = some (r, g, b, a))
    (ha : 128 ≤ a) :
    (r ≤ 255 ∧ g ≤ 255 ∧ b ≤ 255) ∧ ∃ c ∈ cs, (r, g, b) = storeColor c := by
  have hlt := lt_of_pixelAt _ i r g b a h
  rw [mapNearest_length] at hlt
  obtain ⟨r0, g0, b0, a0, h0⟩ := pixelAt_isSome_of_lt data i hlt
  obtain ⟨g1, g2⟩ := mapNearest_pixelAt cs hcs data i r0 g0 b0 a0 h0
  by_cases ha0 : a0 < 128
  · rw [g1 ha0] at h
    simp only [Option.some.injEq, Prod.mk.injEq] at h
    omega
  · obtain ⟨c, hc1, hc2⟩ := g2 (by omega)
    rw [hc2] at h
    simp only [Option.some.injEq, Prod.mk.injEq] at h
    obtain ⟨rfl, rfl, rfl, _⟩ := h
    refine ⟨⟨toUint8Clamp_le _, toUint8Clamp_le _, toUint8Clamp_le _⟩, c, ?_, rfl⟩
    exact mem_of_getElem?_eq_some_color hc1

/-- When every sample is among the fitted centroids and is a triple of bytes,
quantizeImage returns its input. -/
theorem quantizeImage_fixed (rnd : RandomSource) (pos : Nat) (img : ImageData) (k : Int)
    (hb : ∀ i r g b a, pixelAt img.data i = some (r, g, b, a) → 128 ≤ a →
      r ≤ 255 ∧ g ≤ 255 ∧ b ≤ 255)
    (cs : List Color) (p2 : Nat) (hlen : cs.length = k.toNat) (hcs : cs ≠ [])
    (hfit : fitCentroids rnd pos (collectPixels img.data) k = .ok (cs.map some, p2))
    (hmem : ∀ q ∈ collectPixels img.data, q ∈ cs) :
    ∃ p, quantizeImage rnd pos img k = .ok (img, p) := by
  by_cases hpx : collectPixels img.data = []
  · exact ⟨pos, quantizeImage_no_sample rnd pos img k hpx⟩
  · refine ⟨p2, ?_⟩
    rw [quantizeImage_of_fit rnd pos img k hpx cs p2 hfit hlen hcs]
    rw [mapNearest_eq_self cs img.data (fun i r g b a hp ha =>
      ⟨hmem _ (mem_collectPixels_of_pixelAt img.data i r g b a hp ha), hb i r g b a hp ha⟩)]

theorem meanColor_const (s : List Color) (hs : s ≠ []) (c : Color) (h : ∀ p ∈ s, p = c) :
    meanColor s = c := by
  have hb := inBox_mean c c s hs (fun p hp => by
    rw [h p hp]
    exact ⟨⟨le_rfl, le_rfl⟩, ⟨le_rfl, le_rfl⟩, ⟨le_rfl, le_rfl⟩⟩)
  obtain ⟨⟨a1, a2⟩, ⟨b1, b2⟩, ⟨c1, c2⟩⟩ := hb
  exact Prod.ext (le_antisymm a2 a1) (Prod.ext (le_antisymm b2 b1) (le_antisymm c2 c1))

/-- A buffer whose pixels of alpha at least 128 all have the colour `(R, G, B)` is
returned unchanged. -/
theorem quantizeImage_uniform (rnd : RandomSource) (pos : Nat) (img : ImageData) (k : Int)
    (hk : 1 ≤ k) (R G B : Nat) (hR : R ≤ 255) (hG : G ≤ 255) (hB : B ≤ 255)
    (h : ∀ i r g b a, pixelAt img.data i = some (r, g, b, a) → 128 ≤ a →
      r = R ∧ g = G ∧ b = B) :
    ∃ p, quantizeImage rnd pos img k = .ok (img, p) := by
  by_cases hpx : collectPixels img.data = []
  · exact ⟨pos, quantizeImage_no_sample rnd pos img k hpx⟩
  · have hall : ∀ c ∈ collectPixels img.data, c = ((R : ℚ), (G : ℚ), (B : ℚ)) := by
      intro c hc
      rw [collectPixels_eq_map] at hc
      obtain ⟨q, hq, rfl⟩ := List.mem_map.mp hc
      obtain ⟨i, a, hp, ha⟩ := (mem_opaqueColors_iff img.data q).mp hq
      obtain ⟨e1, e2, e3⟩ := h i _ _ _ a hp ha
      rw [e1, e2, e3]
    obtain ⟨cs, p2, h1, h2, h3, _, h5⟩ := fitCentroids_inv rnd pos _ hpx k hk
      (fun c => c = ((R : ℚ), (G : ℚ), (B : ℚ))) hall
      (fun s hs hsub => meanColor_const s hs _ (fun p hp => hall p (hsub p hp)))
    obtain ⟨c0, hc0⟩ := List.exists_mem_of_ne_nil cs h3
    have hmemC : ((R : ℚ), (G : ℚ), (B : ℚ)) ∈ cs := by
      rw [← h5 c0 hc0]
      exact hc0
    exact quantizeImage_fixed rnd pos img k
      (fun i r g b a hp ha => by
        obtain ⟨e1, e2, e3⟩ := h i r g b a hp ha
        rw [e1, e2, e3]
        exact ⟨hR, hG, hB⟩)
      cs p2 h2 h3 h1 (fun q hq => by rw [hall q hq]; exact hmemC)

theorem kmeansLoop_step_spec (rnd : RandomSource) (pixels : List Color) (hpx : pixels ≠ [])
    (k : Int) (cs0 : List Color) (hk : k.toNat = cs0.length) (hcs0 : cs0 ≠ []) (pos n : Nat) :
    ∃ (prev : List Color) (pos1 : Nat) (cs : List Color) (pos2 : Nat),
      kmeansLoop rnd pixels k n (cs0.map some, pos) = .ok (prev.map some, pos1) ∧
      kmeansLoop rnd pixels k (n + 1) (cs0.map some, pos) = .ok (cs.map some, pos2) ∧
      prev.length = cs0.length ∧ cs.length = cs0.length ∧
      ∀ j, j < cs0.length →
        (clusterOf prev pixels j ≠ [] ∧ cs[j]? = some (meanColor (clusterOf prev pixels j))) ∨
        (clusterOf prev pixels j = [] ∧ ∃ q c, pos1 ≤ q ∧ q < pos2 ∧ c ∈ pixels ∧
          pixels[randomIndex rnd q pixels.length]? = some c ∧ cs[j]? = some c) := by
  obtain ⟨prev, pos1, g1, g2, _, _⟩ := kmeansLoop_inv rnd pixels hpx k (fun _ => True)
    (fun _ _ => trivial) (fun _ _ _ => trivial) n cs0 hk hcs0 (fun _ _ => trivial) pos
  have hprev : prev ≠ [] := by
    intro h
    rw [h] at g2
    exact hcs0 (List.length_eq_zero.mp g2.symm)
  obtain ⟨cs, pos2, h1, h2, _, h4⟩ := kmeansIteration_spec rnd pixels hpx prev k
    (by rw [g2]; exact hk) hprev pos1
  refine ⟨prev, pos1, cs, pos2, g1, ?_, g2, by omega, ?_⟩
  · rw [kmeansLoop_succ_last, g1]
    exact h1
  · intro j hj
    exact h4 j (by omega)

/-! ## Evaluation on concrete inputs -/

theorem kmeansLoop_of_step (rnd : RandomSource) (pixels : List Color) (k : Int) (n : Nat)
    (st st' : List Slot × Nat) (h : kmeansIteration rnd pixels k st = .ok st') :
    kmeansLoop rnd pixels k (n + 1) st = kmeansLoop rnd pixels k n st' := by
  rw [kmeansLoop]
  simp only [h]

theorem kmeansLoop_of_fixed (rnd : RandomSource) (pixels : List Color) (k : Int) (n : Nat)
    (st : List Slot × Nat) (h : kmeansIteration rnd pixels k st = .ok st) :
    kmeansLoop rnd pixels k n st = .ok st := by
  induction n with
  | zero => rfl
  | succ n ih => rw [kmeansLoop_of_step rnd pixels k n st st h, ih]

theorem greyImage_pixels : collectPixels greyImage.data = greyPixels := by
  simp [greyImage, greyPixels, collectPixels]

theorem grey_first_fit :
    fitCentroids rndThirds 0 greyPixels 3 = .ok (greyPixels.map some, 3) := by
  have hinit : initCentroids rndThirds greyPixels 3 0 = greyPixels.map some := by
    simp [initCentroids, randomIndex, rndThirds, greyPixels]
  have hstep : kmeansIteration rndThirds greyPixels 3 (greyPixels.map some, 3)
      = .ok (greyPixels.map some, 3) := by
    simp [greyPixels, kmeansIteration, assignPixels, assignStep, closestIndex, closestStep,
      ltMinDist, sqDist, recalcCentroids, recalcStep, List.range_succ, bind, Except.bind,
      Functor.map, Except.map, pure, Except.pure]
    norm_num
  unfold fitCentroids
  have e : (3 : Int).toNat = 3 := rfl
  rw [e, hinit]
  exact kmeansLoop_of_fixed _ _ _ _ _ hstep

theorem grey_second_fit :
    fitCentroids rndTwoThirds 0 greyPixels 3
      = .ok ([((5 : ℚ), (5 : ℚ), (5 : ℚ)), (100, 100, 100), (100, 100, 100)].map some, 9) := by
  have hinit : initCentroids rndTwoThirds greyPixels 3 0
      = [some (100, 100, 100), some (100, 100, 100), some (100, 100, 100)] := by
    simp [initCentroids, randomIndex, rndTwoThirds, greyPixels]
  have hs1 : kmeansIteration rndTwoThirds greyPixels 3
      ([some (100, 100, 100), some (100, 100, 100), some (100, 100, 100)], 3)
      = .ok ([some (110 / 3, 110 / 3, 110 / 3), some (100, 100, 100), some (100, 100, 100)], 5) := by
    simp [greyPixels, kmeansIteration, assignPixels, assignStep, closestIndex, closestStep,
      ltMinDist, sqDist, recalcCentroids, recalcStep, List.range_succ, bind, Except.bind,
      Functor.map, Except.map, pure, Except.pure, randomIndex, rndTwoThirds]
    norm_num
  have hs : ∀ pos : Nat, ∀ c : Color, c = (110 / 3, 110 / 3, 110 / 3) ∨ c = (5, 5, 5) →
      kmeansIteration rndTwoThirds greyPixels 3
        ([some c, some (100, 100, 100), some (100, 100, 100)], pos)
      = .ok ([some (5, 5, 5), some (100, 100, 100), some (100, 100, 100)], pos + 1) := by
    intro pos c hc
    rcases hc with rfl | rfl <;>
    · simp [greyPixels, kmeansIteration, assignPixels, assignStep, closestIndex, closestStep,
        ltMinDist, sqDist, recalcCentroids, recalcStep, List.range_succ, bind, Except.bind,
        Functor.map, Except.map, pure, Except.pure, randomIndex, rndTwoThirds]
      norm_num
  unfold fitCentroids iterations
  have e : (3 : Int).toNat = 3 := rfl
  rw [e, hinit, kmeansLoop_of_step _ _ _ _ _ _ hs1,
    kmeansLoop_of_step _ _ _ _ _ _ (hs 5 _ (Or.inl rfl)),
    kmeansLoop_of_step _ _ _ _ _ _ (hs 6 _ (Or.inr rfl)),
    kmeansLoop_of_step _ _ _ _ _ _ (hs 7 _ (Or.inr rfl)),
    kmeansLoop_of_step _ _ _ _ _ _ (hs 8 _ (Or.inr rfl))]
  rfl

theorem grey_second_map :
    mapNearest [((5 : ℚ), (5 : ℚ), (5 : ℚ)), (100, 100, 100), (100, 100, 100)] greyImage.data
      = [5, 5, 5, 255, 5, 5, 5, 255, 100, 100, 100, 255] := by
  have t5 : toUint8Clamp (5 : ℚ) = 5 := by
    have := toUint8Clamp_natCast 5 (by norm_num)
    simpa using this
  have t100 : toUint8Clamp (100 : ℚ) = 100 := by
    have := toUint8Clamp_natCast 100 (by norm_num)
    simpa using this
  have n0 : firstNearest [((5 : ℚ), (5 : ℚ), (5 : ℚ)), (100, 100, 100), (100, 100, 100)]
      (((0 : Nat) : ℚ), ((0 : Nat) : ℚ), ((0 : Nat) : ℚ)) = 0 := by
    simp [firstNearest, List.findIdx_cons, sqDist]
    norm_num
  have n1 : firstNearest [((5 : ℚ), (5 : ℚ), (5 : ℚ)), (100, 100, 100), (100, 100, 100)]
      (((10 : Nat) : ℚ), ((10 : Nat) : ℚ), ((10 : Nat) : ℚ)) = 0 := by
    simp [firstNearest, List.findIdx_cons, sqDist]
    norm_num
  have n2 : firstNearest [((5 : ℚ), (5 : ℚ), (5 : ℚ)), (100, 100, 100), (100, 100, 100)]
      (((100 : Nat) : ℚ), ((100 : Nat) : ℚ), ((100 : Nat) : ℚ)) = 1 := by
    simp [firstNearest, List.findIdx_cons, sqDist]
    norm_num
  simp only [greyImage, mapNearest, n0, n1, n2]
  simp [t5, t100]


theorem greyImage_bytes : ∀ v ∈ greyImage.data, v ≤ 255 := by decide

theorem grey_first_run : quantizeImage rndThirds 0 greyImage 3 = .ok (greyImage, 3) := by
  have hpx : collectPixels greyImage.data ≠ [] := by
    rw [greyImage_pixels]
    simp [greyPixels]
  have hfit : fitCentroids rndThirds 0 (collectPixels greyImage.data) 3
      = .ok (greyPixels.map some, 3) := by
    rw [greyImage_pixels]
    exact grey_first_fit
  rw [quantizeImage_of_fit rndThirds 0 greyImage 3 hpx greyPixels 3 hfit rfl (by simp [greyPixels])]
  rw [mapNearest_eq_self greyPixels greyImage.data (fun i r g b a hp ha => by
    obtain ⟨m1, m2, m3, _⟩ := pixelAt_mem _ i r g b a hp
    refine ⟨?_, greyImage_bytes r m1, greyImage_bytes g m2, greyImage_bytes b m3⟩
    rw [← greyImage_pixels]
    exact mem_collectPixels_of_pixelAt _ i r g b a hp ha)]

theorem grey_second_run :
    quantizeImage rndTwoThirds 0 greyImage 3
      = .ok (⟨3, 1, [5, 5, 5, 255, 5, 5, 5, 255, 100, 100, 100, 255]⟩, 9) := by
  have hpx : collectPixels greyImage.data ≠ [] := by
    rw [greyImage_pixels]
    simp [greyPixels]
  have hfit : fitCentroids rndTwoThirds 0 (collectPixels greyImage.data) 3
      = .ok ([((5 : ℚ), (5 : ℚ), (5 : ℚ)), (100, 100, 100), (100, 100, 100)].map some, 9) := by
    rw [greyImage_pixels]
    exact grey_second_fit
  rw [quantizeImage_of_fit rndTwoThirds 0 greyImage 3 hpx _ 9 hfit rfl (by simp),
    grey_second_map]
  rfl

/-! ## Running quantizeImage on its own output -/

theorem map_some_injective (a b : List Color) (h : a.map some = b.map some) : a = b :=
  List.map_injective_iff.mpr (Option.some_injective Color) h

/-- The pixels of alpha at least 128 of a returned buffer are triples of bytes. -/
theorem quantizeImage_opaque_bytes (rnd : RandomSource) (pos : Nat) (img : ImageData)
    (k : Int) (out : ImageData) (p1 : Nat) (h1 : quantizeImage rnd pos img k = .ok (out, p1))
    (i r g b a : Nat) (hp : pixelAt out.data i = some (r, g, b, a)) (ha : 128 ≤ a) :
    r ≤ 255 ∧ g ≤ 255 ∧ b ≤ 255 := by
  rcases quantizeImage_cases rnd pos img k out p1 h1 with ⟨h0, e, _⟩ | ⟨_, _, cs, _, _, h3, e⟩
  · subst e
    have := (collectPixels_eq_nil_iff out.data).mp h0 i r g b a hp
    omega
  · subst e
    exact (mapNearest_visible cs h3 img.data i r g b a hp ha).1

theorem quantizeImage_again_fixed (rnd1 rnd2 : RandomSource) (pos1 pos2 : Nat)
    (img : ImageData) (k : Int) (hk : 1 ≤ k) (out1 : ImageData) (p1 : Nat)
    (h1 : quantizeImage rnd1 pos1 img k = .ok (out1, p1)) (cs : List Color) (p2 : Nat)
    (hfit : fitCentroids rnd2 pos2 (collectPixels out1.data) k = .ok (cs.map some, p2))
    (hmem : ∀ q ∈ collectPixels out1.data, q ∈ cs) :
    ∃ p, quantizeImage rnd2 pos2 out1 k = .ok (out1, p) := by
  by_cases hpx : collectPixels out1.data = []
  · exact ⟨pos2, quantizeImage_no_sample rnd2 pos2 out1 k hpx⟩
  · obtain ⟨cs', p', g1, g2, g3⟩ := fitCentroids_ok rnd2 pos2 _ hpx k hk
    rw [hfit] at g1
    injection g1 with g1
    injection g1 with e1 e2
    have e := map_some_injective _ _ e1
    subst e
    exact quantizeImage_fixed rnd2 pos2 out1 k
      (quantizeImage_opaque_bytes rnd1 pos1 img k out1 p1 h1) cs p2 g2 g3 hfit hmem

theorem quantizeImage_again_one (rnd1 rnd2 : RandomSource) (pos1 pos2 : Nat)
    (img : ImageData) (out1 : ImageData) (p1 : Nat)
    (h1 : quantizeImage rnd1 pos1 img 1 = .ok (out1, p1)) :
    ∃ p, quantizeImage rnd2 pos2 out1 1 = .ok (out1, p) := by
  rcases quantizeImage_cases rnd1 pos1 img 1 out1 p1 h1 with
    ⟨h0, e, _⟩ | ⟨_, _, cs, _, h2, h3, e⟩
  · subst e
    exact ⟨pos2, quantizeImage_no_sample rnd2 pos2 out1 1 h0⟩
  · obtain ⟨c, hc⟩ : ∃ c, cs = [c] := by
      match cs, h2 with
      | [a], _ => exact ⟨a, rfl⟩
    subst hc
    subst e
    refine quantizeImage_uniform rnd2 pos2 _ 1 le_rfl (toUint8Clamp c.1) (toUint8Clamp c.2.1)
      (toUint8Clamp c.2.2) (toUint8Clamp_le _) (toUint8Clamp_le _) (toUint8Clamp_le _) ?_
    intro i r g b a hp ha
    obtain ⟨_, c', hc', e⟩ := mapNearest_visible [c] h3 img.data i r g b a hp ha
    rw [List.mem_singleton] at hc'
    subst hc'
    unfold storeColor at e
    simp only [Prod.mk.injEq] at e
    exact e

theorem greyImage_has_sample : collectPixels greyImage.data ≠ [] := by
  rw [greyImage_pixels]
  simp [greyPixels]

theorem flatImage_same (i r g b a : Nat) (hp : pixelAt flatImage.data i = some (r, g, b, a))
    (ha : 128 ≤ a) : r = 7 ∧ g = 8 ∧ b = 9 := by
  have hi := lt_of_pixelAt _ i r g b a hp
  have hl : flatImage.data.length = 12 := rfl
  rw [hl] at hi
  have hi3 : i < 3 := by omega
  interval_cases i
  · simp [pixelAt, flatImage] at hp
    omega
  · simp [pixelAt, flatImage] at hp
    omega
  · simp [pixelAt, flatImage] at hp
    omega

/-! ## The 4 x 1 scenario with two centroids -/

theorem firstNearest_pair (c0 c1 p : Color) :
    firstNearest [c0, c1] p = if sqDist p c0 ≤ sqDist p c1 then 0 else 1 := by
  by_cases h : sqDist p c0 ≤ sqDist p c1
  · rw [if_pos h]
    apply firstNearest_eq [c0, c1] p 0 (by simp)
    · intro i hi
      simp only [List.length_cons, List.length_nil] at hi
      interval_cases i
      · exact le_rfl
      · exact h
    · intro i _ hi
      omega
  · rw [if_neg h]
    apply firstNearest_eq [c0, c1] p 1 (by simp)
    · intro i hi
      simp only [List.length_cons, List.length_nil] at hi
      interval_cases i
      · exact (not_le.mp h).le
      · exact le_rfl
    · intro i _ hi
      interval_cases i
      exact not_le.mp h

theorem pair_of_length_two (cs : List Color) (x y : Color) (hl : cs.length = 2)
    (h0 : cs[0]? = some x) (h1 : cs[1]? = some y) : cs = [x, y] := by
  match cs, hl with
  | [a, b], _ =>
    simp only [List.getElem?_cons_zero, List.getElem?_cons_succ, Option.some.injEq] at h0 h1
    rw [h0, h1]

/-- One iteration from two centroids whose clusters are both non-empty. -/
theorem pairStep_full (rnd : RandomSource) (pixels : List Color) (hpx : pixels ≠ [])
    (c0 c1 : Color) (pos : Nat) (s0 s1 : List Color)
    (h0 : clusterOf [c0, c1] pixels 0 = s0) (h1 : clusterOf [c0, c1] pixels 1 = s1)
    (n0 : s0 ≠ []) (n1 : s1 ≠ []) :
    ∃ pos', kmeansIteration rnd pixels 2 ([c0, c1].map some, pos)
      = .ok ([meanColor s0, meanColor s1].map some, pos') := by
  obtain ⟨cs', pos', g1, g2, _, g4⟩ := kmeansIteration_spec rnd pixels hpx [c0, c1] 2 rfl
    (by simp) pos
  have e0 : cs'[0]? = some (meanColor s0) := by
    rcases g4 0 (by simp) with ⟨_, h⟩ | ⟨h, _⟩
    · rw [h0] at h; exact h
    · rw [h0] at h; exact absurd h n0
  have e1 : cs'[1]? = some (meanColor s1) := by
    rcases g4 1 (by simp) with ⟨_, h⟩ | ⟨h, _⟩
    · rw [h1] at h; exact h
    · rw [h1] at h; exact absurd h n1
  rw [pair_of_length_two cs' _ _ g2 e0 e1] at g1
  exact ⟨pos', g1⟩

/-- One iteration from two centroids of which the second has an empty cluster. -/
theorem pairStep_reseed (rnd : RandomSource) (pixels : List Color) (hpx : pixels ≠ [])
    (c0 c1 : Color) (pos : Nat) (s0 : List Color)
    (h0 : clusterOf [c0, c1] pixels 0 = s0) (h1 : clusterOf [c0, c1] pixels 1 = [])
    (n0 : s0 ≠ []) :
    ∃ pos' c, c ∈ pixels ∧ kmeansIteration rnd pixels 2 ([c0, c1].map some, pos)
      = .ok ([meanColor s0, c].map some, pos') := by
  obtain ⟨cs', pos', g1, g2, _, g4⟩ := kmeansIteration_spec rnd pixels hpx [c0, c1] 2 rfl
    (by simp) pos
  have e0 : cs'[0]? = some (meanColor s0) := by
    rcases g4 0 (by simp) with ⟨_, h⟩ | ⟨h, _⟩
    · rw [h0] at h; exact h
    · rw [h0] at h; exact absurd h n0
  obtain ⟨c, hc, e1⟩ : ∃ c, c ∈ pixels ∧ cs'[1]? = some c := by
    rcases g4 1 (by simp) with ⟨h, _⟩ | ⟨_, q, c, _, _, hc, _, h⟩
    · exact absurd h1 h
    · exact ⟨c, hc, h⟩
  rw [pair_of_length_two cs' _ _ g2 e0 e1] at g1
  exact ⟨pos', c, hc, g1⟩

theorem scenarioPixels_ne : scenarioPixels ≠ [] := by
  simp [scenarioPixels]

theorem scenario_means :
    meanColor [((0 : ℚ), (0 : ℚ), (0 : ℚ)), (10, 0, 0)] = darkMean ∧
    meanColor [((250 : ℚ), (250 : ℚ), (250 : ℚ)), (255, 255, 255)] = lightMean := by
  constructor
  · simp [meanColor, darkMean]
    norm_num
  · simp [meanColor, lightMean]
    norm_num

/-- One iteration from centroids that separate the dark pair from the light pair
yields the two means. -/
theorem split_step (rnd : RandomSource) (pos : Nat) (cs : List Color) (a : Nat)
    (h : SplitsScenario cs a) :
    ∃ pos', kmeansIteration rnd scenarioPixels 2 (cs.map some, pos)
      = .ok ((if a = 0 then [darkMean, lightMean] else [lightMean, darkMean]).map some, pos') := by
  obtain ⟨hl, ha, hd, hlight⟩ := h
  obtain ⟨c0, c1, rfl⟩ : ∃ c0 c1, cs = [c0, c1] := by
    match cs, hl with
    | [x, y], _ => exact ⟨x, y, rfl⟩
  interval_cases a
  · obtain ⟨pos', hp⟩ := pairStep_full rnd scenarioPixels scenarioPixels_ne c0 c1 pos _ _
      hd hlight (by simp) (by simp)
    rw [scenario_means.1, scenario_means.2] at hp
    exact ⟨pos', hp⟩
  · obtain ⟨pos', hp⟩ := pairStep_full rnd scenarioPixels scenarioPixels_ne c0 c1 pos _ _
      hlight hd (by simp) (by simp)
    rw [scenario_means.1, scenario_means.2] at hp
    exact ⟨pos', hp⟩

theorem final_splits :
    SplitsScenario [darkMean, lightMean] 0 ∧ SplitsScenario [lightMean, darkMean] 1 := by
  constructor
  · refine ⟨rfl, by norm_num, ?_, ?_⟩
    · simp [clusterOf, scenarioPixels, List.filter_cons, firstNearest_pair, sqDist, meanColor, darkMean, lightMean]
      all_goals norm_num
    · simp [clusterOf, scenarioPixels, List.filter_cons, firstNearest_pair, sqDist, meanColor, darkMean, lightMean]
      all_goals norm_num
  · refine ⟨rfl, by norm_num, ?_, ?_⟩
    · simp [clusterOf, scenarioPixels, List.filter_cons, firstNearest_pair, sqDist, meanColor, darkMean, lightMean]
      all_goals norm_num
    · simp [clusterOf, scenarioPixels, List.filter_cons, firstNearest_pair, sqDist, meanColor, darkMean, lightMean]
      all_goals norm_num

/-- One iteration from separating centroids yields separating centroids again. -/
theorem split_step_splits (rnd : RandomSource) (pos : Nat) (cs : List Color) (a : Nat)
    (h : SplitsScenario cs a) :
    ∃ (cs' : List Color) (pos' : Nat),
      kmeansIteration rnd scenarioPixels 2 (cs.map some, pos) = .ok (cs'.map some, pos') ∧
      (cs' = [darkMean, lightMean] ∨ cs' = [lightMean, darkMean]) ∧
      ∃ a', SplitsScenario cs' a' := by
  obtain ⟨pos', hp⟩ := split_step rnd pos cs a h
  by_cases ha : a = 0
  · rw [if_pos ha] at hp
    exact ⟨_, pos', hp, Or.inl rfl, 0, final_splits.1⟩
  · rw [if_neg ha] at hp
    exact ⟨_, pos', hp, Or.inr rfl, 1, final_splits.2⟩

theorem first_step_0_0 (rnd : RandomSource) (pos : Nat) :
    ∃ (cs' : List Color) (pos' : Nat) (a : Nat),
      kmeansIteration rnd scenarioPixels 2
          ([((0 : ℚ), (0 : ℚ), (0 : ℚ)), ((0 : ℚ), (0 : ℚ), (0 : ℚ))].map some, pos)
        = .ok (cs'.map some, pos') ∧ SplitsScenario cs' a := by
  obtain ⟨pos', c, hc, hp⟩ := pairStep_reseed rnd scenarioPixels scenarioPixels_ne
    ((0 : ℚ), (0 : ℚ), (0 : ℚ)) ((0 : ℚ), (0 : ℚ), (0 : ℚ)) pos
    [((0 : ℚ), (0 : ℚ), (0 : ℚ)), (10, 0, 0), (250, 250, 250), (255, 255, 255)]
    (by
      simp [clusterOf, scenarioPixels, List.filter_cons, firstNearest_pair, sqDist, meanColor, darkMean, lightMean])
    (by
      simp [clusterOf, scenarioPixels, List.filter_cons, firstNearest_pair, sqDist, meanColor, darkMean, lightMean])
    (by simp)
  simp only [scenarioPixels, List.mem_cons, List.mem_singleton, List.not_mem_nil, or_false] at hc
  rcases hc with rfl | rfl | rfl | rfl
  · refine ⟨_, pos', 1, hp, ?_⟩
    refine ⟨rfl, by norm_num, ?_, ?_⟩
    · simp [clusterOf, scenarioPixels, List.filter_cons, firstNearest_pair, sqDist, meanColor, darkMean, lightMean]
      all_goals norm_num
    · simp [clusterOf, scenarioPixels, List.filter_cons, firstNearest_pair, sqDist, meanColor, darkMean, lightMean]
      all_goals norm_num
  · refine ⟨_, pos', 1, hp, ?_⟩
    refine ⟨rfl, by norm_num, ?_, ?_⟩
    · simp [clusterOf, scenarioPixels, List.filter_cons, firstNearest_pair, sqDist, meanColor, darkMean, lightMean]
      all_goals norm_num
    · simp [clusterOf, scenarioPixels, List.filter_cons, firstNearest_pair, sqDist, meanColor, darkMean, lightMean]
      all_goals norm_num
  · refine ⟨_, pos', 0, hp, ?_⟩
    refine ⟨rfl, by norm_num, ?_, ?_⟩
    · simp [clusterOf, scenarioPixels, List.filter_cons, firstNearest_pair, sqDist, meanColor, darkMean, lightMean]
      all_goals norm_num
    · simp [clusterOf, scenarioPixels, List.filter_cons, firstNearest_pair, sqDist, meanColor, darkMean, lightMean]
      all_goals norm_num
  · refine ⟨_, pos', 0, hp, ?_⟩
    refine ⟨rfl, by norm_num, ?_, ?_⟩
    · simp [clusterOf, scenarioPixels, List.filter_cons, firstNearest_pair, sqDist, meanColor, darkMean, lightMean]
      all_goals norm_num
    · simp [clusterOf, scenarioPixels, List.filter_cons, firstNearest_pair, sqDist, meanColor, darkMean, lightMean]
      all_goals norm_num

theorem first_step_0_1 (rnd : RandomSource) (pos : Nat) :
    ∃ (cs' : List Color) (pos' : Nat) (a : Nat),
      kmeansIteration rnd scenarioPixels 2
          ([((0 : ℚ), (0 : ℚ), (0 : ℚ)), ((10 : ℚ), (0 : ℚ), (0 : ℚ))].map some, pos)
        = .ok (cs'.map some, pos') ∧ SplitsScenario cs' a := by
  obtain ⟨pos', hp⟩ := pairStep_full rnd scenarioPixels scenarioPixels_ne
    ((0 : ℚ), (0 : ℚ), (0 : ℚ)) ((10 : ℚ), (0 : ℚ), (0 : ℚ)) pos
    [((0 : ℚ), (0 : ℚ), (0 : ℚ))]
    [((10 : ℚ), (0 : ℚ), (0 : ℚ)), (250, 250, 250), (255, 255, 255)]
    (by
      simp [clusterOf, scenarioPixels, List.filter_cons, firstNearest_pair, sqDist, meanColor, darkMean, lightMean]
      all_goals norm_num)
    (by
      simp [clusterOf, scenarioPixels, List.filter_cons, firstNearest_pair, sqDist, meanColor, darkMean, lightMean]
      all_goals norm_num)
    (by simp) (by simp)
  refine ⟨_, pos', 0, hp, ?_⟩
  refine ⟨rfl, by norm_num, ?_, ?_⟩
  · simp [clusterOf, scenarioPixels, List.filter_cons, firstNearest_pair, sqDist, meanColor, darkMean, lightMean]
    all_goals norm_num
  · simp [clusterOf, scenarioPixels, List.filter_cons, firstNearest_pair, sqDist, meanColor, darkMean, lightMean]
    all_goals norm_num

theorem first_step_0_2 (rnd : RandomSource) (pos : Nat) :
    ∃ (cs' : List Color) (pos' : Nat) (a : Nat),
      kmeansIteration rnd scenarioPixels 2
          ([((0 : ℚ), (0 : ℚ), (0 : ℚ)), ((250 : ℚ), (250 : ℚ), (250 : ℚ))].map some, pos)
        = .ok (cs'.map some, pos') ∧ SplitsScenario cs' a := by
  have hs : SplitsScenario [((0 : ℚ), (0 : ℚ), (0 : ℚ)), ((250 : ℚ), (250 : ℚ), (250 : ℚ))] 0 := by
    refine ⟨rfl, by norm_num, ?_, ?_⟩
    · simp [clusterOf, scenarioPixels, List.filter_cons, firstNearest_pair, sqDist, meanColor, darkMean, lightMean]
      all_goals norm_num
    · simp [clusterOf, scenarioPixels, List.filter_cons, firstNearest_pair, sqDist, meanColor, darkMean, lightMean]
      all_goals norm_num
  obtain ⟨cs', pos', h1, _, a', h3⟩ := split_step_splits rnd pos _ 0 hs
  exact ⟨cs', pos', a', h1, h3⟩

theorem first_step_0_3 (rnd : RandomSource) (pos : Nat) :
    ∃ (cs' : List Color) (pos' : Nat) (a : Nat),
      kmeansIteration rnd scenarioPixels 2
          ([((0 : ℚ), (0 : ℚ), (0 : ℚ)), ((255 : ℚ), (255 : ℚ), (255 : ℚ))].map some, pos)
        = .ok (cs'.map some, pos') ∧ SplitsScenario cs' a := by
  have hs : SplitsScenario [((0 : ℚ), (0 : ℚ), (0 : ℚ)), ((255 : ℚ), (255 : ℚ), (255 : ℚ))] 0 := by
    refine ⟨rfl, by norm_num, ?_, ?_⟩
    · simp [clusterOf, scenarioPixels, List.filter_cons, firstNearest_pair, sqDist, meanColor, darkMean, lightMean]
      all_goals norm_num
    · simp [clusterOf, scenarioPixels, List.filter_cons, firstNearest_pair, sqDist, meanColor, darkMean, lightMean]
      all_goals norm_num
  obtain ⟨cs', pos', h1, _, a', h3⟩ := split_step_splits rnd pos _ 0 hs
  exact ⟨cs', pos', a', h1, h3⟩

theorem first_step_1_0 (rnd : RandomSource) (pos : Nat) :
    ∃ (cs' : List Color) (pos' : Nat) (a : Nat),
      kmeansIteration rnd scenarioPixels 2
          ([((10 : ℚ), (0 : ℚ), (0 : ℚ)), ((0 : ℚ), (0 : ℚ), (0 : ℚ))].map some, pos)
        = .ok (cs'.map some, pos') ∧ SplitsScenario cs' a := by
  obtain ⟨pos', hp⟩ := pairStep_full rnd scenarioPixels scenarioPixels_ne
    ((10 : ℚ), (0 : ℚ), (0 : ℚ)) ((0 : ℚ), (0 : ℚ), (0 : ℚ)) pos
    [((10 : ℚ), (0 : ℚ), (0 : ℚ)), (250, 250, 250), (255, 255, 255)]
    [((0 : ℚ), (0 : ℚ), (0 : ℚ))]
    (by
      simp [clusterOf, scenarioPixels, List.filter_cons, firstNearest_pair, sqDist, meanColor, darkMean, lightMean]
      all_goals norm_num)
    (by
      simp [clusterOf, scenarioPixels, List.filter_cons, firstNearest_pair, sqDist, meanColor, darkMean, lightMean]
      all_goals norm_num)
    (by simp) (by simp)
  refine ⟨_, pos', 1, hp, ?_⟩
  refine ⟨rfl, by norm_num, ?_, ?_⟩
  · simp [clusterOf, scenarioPixels, List.filter_cons, firstNearest_pair, sqDist, meanColor, darkMean, lightMean]
    all_goals norm_num
  · simp [clusterOf, scenarioPixels, List.filter_cons, firstNearest_pair, sqDist, meanColor, darkMean, lightMean]
    all_goals norm_num

theorem first_step_1_1 (rnd : RandomSource) (pos : Nat) :
    ∃ (cs' : List Color) (pos' : Nat) (a : Nat),
      kmeansIteration rnd scenarioPixels 2
          ([((10 : ℚ), (0 : ℚ), (0 : ℚ)), ((10 : ℚ), (0 : ℚ), (0 : ℚ))].map some, pos)
        = .ok (cs'.map some, pos') ∧ SplitsScenario cs' a := by
  obtain ⟨pos', c, hc, hp⟩ := pairStep_reseed rnd scenarioPixels scenarioPixels_ne
    ((10 : ℚ), (0 : ℚ), (0 : ℚ)) ((10 : ℚ), (0 : ℚ), (0 : ℚ)) pos
    [((0 : ℚ), (0 : ℚ), (0 : ℚ)), (10, 0, 0), (250, 250, 250), (255, 255, 255)]
    (by
      simp [clusterOf, scenarioPixels, List.filter_cons, firstNearest_pair, sqDist, meanColor, darkMean, lightMean])
    (by
      simp [clusterOf, scenarioPixels, List.filter_cons, firstNearest_pair, sqDist, meanColor, darkMean, lightMean])
    (by simp)
  simp only [scenarioPixels, List.mem_cons, List.mem_singleton, List.not_mem_nil, or_false] at hc
  rcases hc with rfl | rfl | rfl | rfl
  · refine ⟨_, pos', 1, hp, ?_⟩
    refine ⟨rfl, by norm_num, ?_, ?_⟩
    · simp [clusterOf, scenarioPixels, List.filter_cons, firstNearest_pair, sqDist, meanColor, darkMean, lightMean]
      all_goals norm_num
    · simp [clusterOf, scenarioPixels, List.filter_cons, firstNearest_pair, sqDist, meanColor, darkMean, lightMean]
      all_goals norm_num
  · refine ⟨_, pos', 1, hp, ?_⟩
    refine ⟨rfl, by norm_num, ?_, ?_⟩
    · simp [clusterOf, scenarioPixels, List.filter_cons, firstNearest_pair, sqDist, meanColor, darkMean, lightMean]
      all_goals norm_num
    · simp [clusterOf, scenarioPixels, List.filter_cons, firstNearest_pair, sqDist, meanColor, darkMean, lightMean]
      all_goals norm_num
  · refine ⟨_, pos', 0, hp, ?_⟩
    refine ⟨rfl, by norm_num, ?_, ?_⟩
    · simp [clusterOf, scenarioPixels, List.filter_cons, firstNearest_pair, sqDist, meanColor, darkMean, lightMean]
      all_goals norm_num
    · simp [clusterOf, scenarioPixels, List.filter_cons, firstNearest_pair, sqDist, meanColor, darkMean, lightMean]
      all_goals norm_num
  · refine ⟨_, pos', 0, hp, ?_⟩
    refine ⟨rfl, by norm_num, ?_, ?_⟩
    · simp [clusterOf, scenarioPixels, List.filter_cons, firstNearest_pair, sqDist, meanColor, darkMean, lightMean]
      all_goals norm_num
    · simp [clusterOf, scenarioPixels, List.filter_cons, firstNearest_pair, sqDist, meanColor, darkMean, lightMean]
      all_goals norm_num

theorem first_step_1_2 (rnd : RandomSource) (pos : Nat) :
    ∃ (cs' : List Color) (pos' : Nat) (a : Nat),
      kmeansIteration rnd scenarioPixels 2
          ([((10 : ℚ), (0 : ℚ), (0 : ℚ)), ((250 : ℚ), (250 : ℚ), (250 : ℚ))].map some, pos)
        = .ok (cs'.map some, pos') ∧ SplitsScenario cs' a := by
  have hs : SplitsScenario [((10 : ℚ), (0 : ℚ), (0 : ℚ)), ((250 : ℚ), (250 : ℚ), (250 : ℚ))] 0 := by
    refine ⟨rfl, by norm_num, ?_, ?_⟩
    · simp [clusterOf, scenarioPixels, List.filter_cons, firstNearest_pair, sqDist, meanColor, darkMean, lightMean]
      all_goals norm_num
    · simp [clusterOf, scenarioPixels, List.filter_cons, firstNearest_pair, sqDist, meanColor, darkMean, lightMean]
      all_goals norm_num
  obtain ⟨cs', pos', h1, _, a', h3⟩ := split_step_splits rnd pos _ 0 hs
  exact ⟨cs', pos', a', h1, h3⟩

theorem first_step_1_3 (rnd : RandomSource) (pos : Nat) :
    ∃ (cs' : List Color) (pos' : Nat) (a : Nat),
      kmeansIteration rnd scenarioPixels 2
          ([((10 : ℚ), (0 : ℚ), (0 : ℚ)), ((255 : ℚ), (255 : ℚ), (255 : ℚ))].map some, pos)
        = .ok (cs'.map some, pos') ∧ SplitsScenario cs' a := by
  have hs : SplitsScenario [((10 : ℚ), (0 : ℚ), (0 : ℚ)), ((255 : ℚ), (255 : ℚ), (255 : ℚ))] 0 := by
    refine ⟨rfl, by norm_num, ?_, ?_⟩
    · simp [clusterOf, scenarioPixels, List.filter_cons, firstNearest_pair, sqDist, meanColor, darkMean, lightMean]
      all_goals norm_num
    · simp [clusterOf, scenarioPixels, List.filter_cons, firstNearest_pair, sqDist, meanColor, darkMean, lightMean]
      all_goals norm_num
  obtain ⟨cs', pos', h1, _, a', h3⟩ := split_step_splits rnd pos _ 0 hs
  exact ⟨cs', pos', a', h1, h3⟩

theorem first_step_2_0 (rnd : RandomSource) (pos : Nat) :
    ∃ (cs' : List Color) (pos' : Nat) (a : Nat),
      kmeansIteration rnd scenarioPixels 2
          ([((250 : ℚ), (250 : ℚ), (250 : ℚ)), ((0 : ℚ), (0 : ℚ), (0 : ℚ))].map some, pos)
        = .ok (cs'.map some, pos') ∧ SplitsScenario cs' a := by
  have hs : SplitsScenario [((250 : ℚ), (250 : ℚ), (250 : ℚ)), ((0 : ℚ), (0 : ℚ), (0 : ℚ))] 1 := by
    refine ⟨rfl, by norm_num, ?_, ?_⟩
    · simp [clusterOf, scenarioPixels, List.filter_cons, firstNearest_pair, sqDist, meanColor, darkMean, lightMean]
      all_goals norm_num
    · simp [clusterOf, scenarioPixels, List.filter_cons, firstNearest_pair, sqDist, meanColor, darkMean, lightMean]
      all_goals norm_num
  obtain ⟨cs', pos', h1, _, a', h3⟩ := split_step_splits rnd pos _ 1 hs
  exact ⟨cs', pos', a', h1, h3⟩

theorem first_step_2_1 (rnd : RandomSource) (pos : Nat) :
    ∃ (cs' : List Color) (pos' : Nat) (a : Nat),
      kmeansIteration rnd scenarioPixels 2
          ([((250 : ℚ), (250 : ℚ), (250 : ℚ)), ((10 : ℚ), (0 : ℚ), (0 : ℚ))].map some, pos)
        = .ok (cs'.map some, pos') ∧ SplitsScenario cs' a := by
  have hs : SplitsScenario [((250 : ℚ), (250 : ℚ), (250 : ℚ)), ((10 : ℚ), (0 : ℚ), (0 : ℚ))] 1 := by
    refine ⟨rfl, by norm_num, ?_, ?_⟩
    · simp [clusterOf, scenarioPixels, List.filter_cons, firstNearest_pair, sqDist, meanColor, darkMean, lightMean]
      all_goals norm_num
    · simp [clusterOf, scenarioPixels, List.filter_cons, firstNearest_pair, sqDist, meanColor, darkMean, lightMean]
      all_goals norm_num
  obtain ⟨cs', pos', h1, _, a', h3⟩ := split_step_splits rnd pos _ 1 hs
  exact ⟨cs', pos', a', h1, h3⟩

theorem first_step_2_2 (rnd : RandomSource) (pos : Nat) :
    ∃ (cs' : List Color) (pos' : Nat) (a : Nat),
      kmeansIteration rnd scenarioPixels 2
          ([((250 : ℚ), (250 : ℚ), (250 : ℚ)), ((250 : ℚ), (250 : ℚ), (250 : ℚ))].map some, pos)
        = .ok (cs'.map some, pos') ∧ SplitsScenario cs' a := by
  obtain ⟨pos', c, hc, hp⟩ := pairStep_reseed rnd scenarioPixels scenarioPixels_ne
    ((250 : ℚ), (250 : ℚ), (250 : ℚ)) ((250 : ℚ), (250 : ℚ), (250 : ℚ)) pos
    [((0 : ℚ), (0 : ℚ), (0 : ℚ)), (10, 0, 0), (250, 250, 250), (255, 255, 255)]
    (by
      simp [clusterOf, scenarioPixels, List.filter_cons, firstNearest_pair, sqDist, meanColor, darkMean, lightMean])
    (by
      simp [clusterOf, scenarioPixels, List.filter_cons, firstNearest_pair, sqDist, meanColor, darkMean, lightMean])
    (by simp)
  simp only [scenarioPixels, List.mem_cons, List.mem_singleton, List.not_mem_nil, or_false] at hc
  rcases hc with rfl | rfl | rfl | rfl
  · refine ⟨_, pos', 1, hp, ?_⟩
    refine ⟨rfl, by norm_num, ?_, ?_⟩
    · simp [clusterOf, scenarioPixels, List.filter_cons, firstNearest_pair, sqDist, meanColor, darkMean, lightMean]
      all_goals norm_num
    · simp [clusterOf, scenarioPixels, List.filter_cons, firstNearest_pair, sqDist, meanColor, darkMean, lightMean]
      all_goals norm_num
  · refine ⟨_, pos', 1, hp, ?_⟩
    refine ⟨rfl, by norm_num, ?_, ?_⟩
    · simp [clusterOf, scenarioPixels, List.filter_cons, firstNearest_pair, sqDist, meanColor, darkMean, lightMean]
      all_goals norm_num
    · simp [clusterOf, scenarioPixels, List.filter_cons, firstNearest_pair, sqDist, meanColor, darkMean, lightMean]
      all_goals norm_num
  · refine ⟨_, pos', 0, hp, ?_⟩
    refine ⟨rfl, by norm_num, ?_, ?_⟩
    · simp [clusterOf, scenarioPixels, List.filter_cons, firstNearest_pair, sqDist, meanColor, darkMean, lightMean]
      all_goals norm_num
    · simp [clusterOf, scenarioPixels, List.filter_cons, firstNearest_pair, sqDist, meanColor, darkMean, lightMean]
      all_goals norm_num
  · refine ⟨_, pos', 0, hp, ?_⟩
    refine ⟨rfl, by norm_num, ?_, ?_⟩
    · simp [clusterOf, scenarioPixels, List.filter_cons, firstNearest_pair, sqDist, meanColor, darkMean, lightMean]
      all_goals norm_num
    · simp [clusterOf, scenarioPixels, List.filter_cons, firstNearest_pair, sqDist, meanColor, darkMean, lightMean]
      all_goals norm_num

theorem first_step_2_3 (rnd : RandomSource) (pos : Nat) :
    ∃ (cs' : List Color) (pos' : Nat) (a : Nat),
      kmeansIteration rnd scenarioPixels 2
          ([((250 : ℚ), (250 : ℚ), (250 : ℚ)), ((255 : ℚ), (255 : ℚ), (255 : ℚ))].map some, pos)
        = .ok (cs'.map some, pos') ∧ SplitsScenario cs' a := by
  obtain ⟨pos', hp⟩ := pairStep_full rnd scenarioPixels scenarioPixels_ne
    ((250 : ℚ), (250 : ℚ), (250 : ℚ)) ((255 : ℚ), (255 : ℚ), (255 : ℚ)) pos
    [((0 : ℚ), (0 : ℚ), (0 : ℚ)), (10, 0, 0), (250, 250, 250)]
    [((255 : ℚ), (255 : ℚ), (255 : ℚ))]
    (by
      simp [clusterOf, scenarioPixels, List.filter_cons, firstNearest_pair, sqDist, meanColor, darkMean, lightMean]
      all_goals norm_num)
    (by
      simp [clusterOf, scenarioPixels, List.filter_cons, firstNearest_pair, sqDist, meanColor, darkMean, lightMean]
      all_goals norm_num)
    (by simp) (by simp)
  refine ⟨_, pos', 0, hp, ?_⟩
  refine ⟨rfl, by norm_num, ?_, ?_⟩
  · simp [clusterOf, scenarioPixels, List.filter_cons, firstNearest_pair, sqDist, meanColor, darkMean, lightMean]
    all_goals norm_num
  · simp [clusterOf, scenarioPixels, List.filter_cons, firstNearest_pair, sqDist, meanColor, darkMean, lightMean]
    all_goals norm_num

theorem first_step_3_0 (rnd : RandomSource) (pos : Nat) :
    ∃ (cs' : List Color) (pos' : Nat) (a : Nat),
      kmeansIteration rnd scenarioPixels 2
          ([((255 : ℚ), (255 : ℚ), (255 : ℚ)), ((0 : ℚ), (0 : ℚ), (0 : ℚ))].map some, pos)
        = .ok (cs'.map some, pos') ∧ SplitsScenario cs' a := by
  have hs : SplitsScenario [((255 : ℚ), (255 : ℚ), (255 : ℚ)), ((0 : ℚ), (0 : ℚ), (0 : ℚ))] 1 := by
    refine ⟨rfl, by norm_num, ?_, ?_⟩
    · simp [clusterOf, scenarioPixels, List.filter_cons, firstNearest_pair, sqDist, meanColor, darkMean, lightMean]
      all_goals norm_num
    · simp [clusterOf, scenarioPixels, List.filter_cons, firstNearest_pair, sqDist, meanColor, darkMean, lightMean]
      all_goals norm_num
  obtain ⟨cs', pos', h1, _, a', h3⟩ := split_step_splits rnd pos _ 1 hs
  exact ⟨cs', pos', a', h1, h3⟩

theorem first_step_3_1 (rnd : RandomSource) (pos : Nat) :
    ∃ (cs' : List Color) (pos' : Nat) (a : Nat),
      kmeansIteration rnd scenarioPixels 2
          ([((255 : ℚ), (255 : ℚ), (255 : ℚ)), ((10 : ℚ), (0 : ℚ), (0 : ℚ))].map some, pos)
        = .ok (cs'.map some, pos') ∧ SplitsScenario cs' a := by
  have hs : SplitsScenario [((255 : ℚ), (255 : ℚ), (255 : ℚ)), ((10 : ℚ), (0 : ℚ), (0 : ℚ))] 1 := by
    refine ⟨rfl, by norm_num, ?_, ?_⟩
    · simp [clusterOf, scenarioPixels, List.filter_cons, firstNearest_pair, sqDist, meanColor, darkMean, lightMean]
      all_goals norm_num
    · simp [clusterOf, scenarioPixels, List.filter_cons, firstNearest_pair, sqDist, meanColor, darkMean, lightMean]
      all_goals norm_num
  obtain ⟨cs', pos', h1, _, a', h3⟩ := split_step_splits rnd pos _ 1 hs
  exact ⟨cs', pos', a', h1, h3⟩

theorem first_step_3_2 (rnd : RandomSource) (pos : Nat) :
    ∃ (cs' : List Color) (pos' : Nat) (a : Nat),
      kmeansIteration rnd scenarioPixels 2
          ([((255 : ℚ), (255 : ℚ), (255 : ℚ)), ((250 : ℚ), (250 : ℚ), (250 : ℚ))].map some, pos)
        = .ok (cs'.map some, pos') ∧ SplitsScenario cs' a := by
  obtain ⟨pos', hp⟩ := pairStep_full rnd scenarioPixels scenarioPixels_ne
    ((255 : ℚ), (255 : ℚ), (255 : ℚ)) ((250 : ℚ), (250 : ℚ), (250 : ℚ)) pos
    [((255 : ℚ), (255 : ℚ), (255 : ℚ))]
    [((0 : ℚ), (0 : ℚ), (0 : ℚ)), (10, 0, 0), (250, 250, 250)]
    (by
      simp [clusterOf, scenarioPixels, List.filter_cons, firstNearest_pair, sqDist, meanColor, darkMean, lightMean]
      all_goals norm_num)
    (by
      simp [clusterOf, scenarioPixels, List.filter_cons, firstNearest_pair, sqDist, meanColor, darkMean, lightMean]
      all_goals norm_num)
    (by simp) (by simp)
  refine ⟨_, pos', 1, hp, ?_⟩
  refine ⟨rfl, by norm_num, ?_, ?_⟩
  · simp [clusterOf, scenarioPixels, List.filter_cons, firstNearest_pair, sqDist, meanColor, darkMean, lightMean]
    all_goals norm_num
  · simp [clusterOf, scenarioPixels, List.filter_cons, firstNearest_pair, sqDist, meanColor, darkMean, lightMean]
    all_goals norm_num

theorem first_step_3_3 (rnd : RandomSource) (pos : Nat) :
    ∃ (cs' : List Color) (pos' : Nat) (a : Nat),
      kmeansIteration rnd scenarioPixels 2
          ([((255 : ℚ), (255 : ℚ), (255 : ℚ)), ((255 : ℚ), (255 : ℚ), (255 : ℚ))].map some, pos)
        = .ok (cs'.map some, pos') ∧ SplitsScenario cs' a := by
  obtain ⟨pos', c, hc, hp⟩ := pairStep_reseed rnd scenarioPixels scenarioPixels_ne
    ((255 : ℚ), (255 : ℚ), (255 : ℚ)) ((255 : ℚ), (255 : ℚ), (255 : ℚ)) pos
    [((0 : ℚ), (0 : ℚ), (0 : ℚ)), (10, 0, 0), (250, 250, 250), (255, 255, 255)]
    (by
      simp [clusterOf, scenarioPixels, List.filter_cons, firstNearest_pair, sqDist, meanColor, darkMean, lightMean])
    (by
      simp [clusterOf, scenarioPixels, List.filter_cons, firstNearest_pair, sqDist, meanColor, darkMean, lightMean])
    (by simp)
  simp only [scenarioPixels, List.mem_cons, List.mem_singleton, List.not_mem_nil, or_false] at hc
  rcases hc with rfl | rfl | rfl | rfl
  · refine ⟨_, pos', 1, hp, ?_⟩
    refine ⟨rfl, by norm_num, ?_, ?_⟩
    · simp [clusterOf, scenarioPixels, List.filter_cons, firstNearest_pair, sqDist, meanColor, darkMean, lightMean]
      all_goals norm_num
    · simp [clusterOf, scenarioPixels, List.filter_cons, firstNearest_pair, sqDist, meanColor, darkMean, lightMean]
      all_goals norm_num
  · refine ⟨_, pos', 1, hp, ?_⟩
    refine ⟨rfl, by norm_num, ?_, ?_⟩
    · simp [clusterOf, scenarioPixels, List.filter_cons, firstNearest_pair, sqDist, meanColor, darkMean, lightMean]
      all_goals norm_num
    · simp [clusterOf, scenarioPixels, List.filter_cons, firstNearest_pair, sqDist, meanColor, darkMean, lightMean]
      all_goals norm_num
  · refine ⟨_, pos', 0, hp, ?_⟩
    refine ⟨rfl, by norm_num, ?_, ?_⟩
    · simp [clusterOf, scenarioPixels, List.filter_cons, firstNearest_pair, sqDist, meanColor, darkMean, lightMean]
      all_goals norm_num
    · simp [clusterOf, scenarioPixels, List.filter_cons, firstNearest_pair, sqDist, meanColor, darkMean, lightMean]
      all_goals norm_num
  · refine ⟨_, pos', 0, hp, ?_⟩
    refine ⟨rfl, by norm_num, ?_, ?_⟩
    · simp [clusterOf, scenarioPixels, List.filter_cons, firstNearest_pair, sqDist, meanColor, darkMean, lightMean]
      all_goals norm_num
    · simp [clusterOf, scenarioPixels, List.filter_cons, firstNearest_pair, sqDist, meanColor, darkMean, lightMean]
      all_goals norm_num

theorem first_step (rnd : RandomSource) (pos : Nat) (c0 c1 : Color)
    (h0 : c0 ∈ scenarioPixels) (h1 : c1 ∈ scenarioPixels) :
    ∃ (cs' : List Color) (pos' : Nat) (a : Nat),
      kmeansIteration rnd scenarioPixels 2 ([c0, c1].map some, pos)
        = .ok (cs'.map some, pos') ∧ SplitsScenario cs' a := by
  simp only [scenarioPixels, List.mem_cons, List.mem_singleton, List.not_mem_nil,
    or_false] at h0 h1
  rcases h0 with rfl | rfl | rfl | rfl <;> rcases h1 with rfl | rfl | rfl | rfl
  · exact first_step_0_0 rnd pos
  · exact first_step_0_1 rnd pos
  · exact first_step_0_2 rnd pos
  · exact first_step_0_3 rnd pos
  · exact first_step_1_0 rnd pos
  · exact first_step_1_1 rnd pos
  · exact first_step_1_2 rnd pos
  · exact first_step_1_3 rnd pos
  · exact first_step_2_0 rnd pos
  · exact first_step_2_1 rnd pos
  · exact first_step_2_2 rnd pos
  · exact first_step_2_3 rnd pos
  · exact first_step_3_0 rnd pos
  · exact first_step_3_1 rnd pos
  · exact first_step_3_2 rnd pos
  · exact first_step_3_3 rnd pos

/-- From separating centroids, any positive number of iterations ends on the two means. -/
theorem splits_loop (rnd : RandomSource) (n : Nat) (cs : List Color) (a pos : Nat)
    (h : SplitsScenario cs a) :
    ∃ (cs' : List Color) (pos' : Nat),
      kmeansLoop rnd scenarioPixels 2 (n + 1) (cs.map some, pos) = .ok (cs'.map some, pos') ∧
      (cs' = [darkMean, lightMean] ∨ cs' = [lightMean, darkMean]) := by
  induction n generalizing cs a pos with
  | zero =>
    obtain ⟨cs', pos', h1, h2, _⟩ := split_step_splits rnd pos cs a h
    refine ⟨cs', pos', ?_, h2⟩
    rw [kmeansLoop_of_step rnd scenarioPixels 2 0 _ _ h1]
    rfl
  | succ n ih =>
    obtain ⟨cs1, pos1, h1, _, a1, h3⟩ := split_step_splits rnd pos cs a h
    obtain ⟨cs', pos', g1, g2⟩ := ih cs1 a1 pos1 h3
    refine ⟨cs', pos', ?_, g2⟩
    rw [kmeansLoop_of_step rnd scenarioPixels 2 (n + 1) _ _ h1]
    exact g1

theorem scenario_fit (rnd : RandomSource) (pos : Nat) :
    ∃ (cs : List Color) (pos' : Nat),
      fitCentroids rnd pos scenarioPixels 2 = .ok (cs.map some, pos') ∧
      (cs = [darkMean, lightMean] ∨ cs = [lightMean, darkMean]) := by
  obtain ⟨cs0, h1, h2, h3⟩ := initCentroids_spec rnd scenarioPixels scenarioPixels_ne 2 pos
  obtain ⟨c0, c1, rfl⟩ : ∃ c0 c1, cs0 = [c0, c1] := by
    match cs0, h2 with
    | [x, y], _ => exact ⟨x, y, rfl⟩
  obtain ⟨cs1, pos1, a, g1, g2⟩ := first_step rnd (pos + 2) c0 c1
    (h3 c0 (by simp)) (h3 c1 (by simp))
  obtain ⟨cs, pos', f1, f2⟩ := splits_loop rnd 3 cs1 a pos1 g2
  refine ⟨cs, pos', ?_, f2⟩
  unfold fitCentroids iterations
  have e : (2 : Int).toNat = 2 := rfl
  rw [e, h1, kmeansLoop_of_step rnd scenarioPixels 2 4 _ _ g1]
  exact f1

theorem scenarioImage_pixels : collectPixels scenarioImage.data = scenarioPixels := by
  simp [scenarioImage, scenarioPixels, collectPixels]

theorem toUint8Clamp_lightMean : toUint8Clamp (505 / 2) = 252 := by
  have hf : ⌊((505 : ℚ) / 2)⌋ = 252 := by
    rw [Int.floor_eq_iff]
    constructor <;> norm_num
  have hc : min (max ((505 : ℚ) / 2) 0) 255 = 505 / 2 := by
    rw [max_eq_left (by norm_num), min_eq_left (by norm_num)]
  unfold toUint8Clamp
  simp only [hc, hf]
  norm_num
  rfl


theorem scenario_map (cs : List Color)
    (h : cs = [darkMean, lightMean] ∨ cs = [lightMean, darkMean]) :
    mapNearest cs scenarioImage.data
      = [5, 0, 0, 255, 5, 0, 0, 255, 252, 252, 252, 255, 252, 252, 252, 255] := by
  have t5 : toUint8Clamp (5 : ℚ) = 5 := by
    have := toUint8Clamp_natCast 5 (by norm_num)
    simpa using this
  have t0 : toUint8Clamp (0 : ℚ) = 0 := by
    have := toUint8Clamp_natCast 0 (by norm_num)
    simpa using this
  rcases h with rfl | rfl
  · simp [scenarioImage, mapNearest, firstNearest_pair, sqDist, darkMean, lightMean]
    norm_num
    exact ⟨t5, t0, t5, t0, toUint8Clamp_lightMean⟩
  · simp [scenarioImage, mapNearest, firstNearest_pair, sqDist, darkMean, lightMean]
    norm_num
    exact ⟨t5, t0, t5, t0, toUint8Clamp_lightMean⟩

/-! ## The claims: sharpenCanvas -/

/-- C5: `sharpenCanvas` with amount 0 returns a `w` x `h` buffer of bytes equal, byte for
byte, to its input. -/
theorem sharpenCanvas_amount_zero (ctx : ImageData) (w h : Nat)
    (hlen : ctx.data.length = w * h * 4) (hbytes : ∀ v ∈ ctx.data, v ≤ 255) :
    sharpenCanvas ctx w h 0 = ctx :=
  sharpenCanvas_zero ctx w h hlen hbytes

/-- Witness of C5: a 2 x 1 buffer. -/
theorem sharpenCanvas_amount_zero_witness :
    sharpenCanvas ⟨2, 1, [10, 200, 30, 255, 0, 255, 7, 64]⟩ 2 1 0 =
      ⟨2, 1, [10, 200, 30, 255, 0, 255, 7, 64]⟩ :=
  sharpenCanvas_amount_zero ⟨2, 1, [10, 200, 30, 255, 0, 255, 7, 64]⟩ 2 1 (by decide)
    (by decide)

/-- C6: `sharpenCanvas` leaves the alpha byte of every pixel as it is in the input, for
every buffer, every `w`, `h` and every amount. -/
theorem sharpenCanvas_alpha (ctx : ImageData) (w h : Nat) (amount : ℚ) (i : Nat) :
    (sharpenCanvas ctx w h amount).data[4 * i + 3]? = ctx.data[4 * i + 3]? := by
  rw [sharpenCanvas_getElem?, if_neg (by omega)]

/-- C13: `sharpenCanvas` returns unchanged every `w` x `h` buffer whose pixels all have
the same R, G, B (`col 0`, `col 1`, `col 2`), whatever their alphas and the amount. -/
theorem sharpenCanvas_uniform_rgb (ctx : ImageData) (w h : Nat) (amount : ℚ)
    (col : Nat → Nat) (hlen : ctx.data.length = w * h * 4)
    (hbytes : ∀ v ∈ ctx.data, v ≤ 255)
    (hcol : ∀ x y c, x < w → y < h → c < 3 → chan ctx.data w x y c = col c) :
    sharpenCanvas ctx w h amount = ctx :=
  sharpenCanvas_uniform ctx w h amount col hlen hbytes hcol

/-- Witness of C13: the 3 x 1 buffer (100,100,100,255), (100,100,100,255),
(100,100,100,64) sharpened with amount 0.5 is unchanged. -/
theorem sharpenCanvas_uniform_rgb_witness :
    sharpenCanvas ⟨3, 1, [100, 100, 100, 255, 100, 100, 100, 255, 100, 100, 100, 64]⟩ 3 1
        (1 / 2) =
      ⟨3, 1, [100, 100, 100, 255, 100, 100, 100, 255, 100, 100, 100, 64]⟩ :=
  sharpenCanvas_uniform_rgb
    ⟨3, 1, [100, 100, 100, 255, 100, 100, 100, 255, 100, 100, 100, 64]⟩ 3 1 (1 / 2)
    (fun _ => 100) (by decide) (by decide)
    (by
      intro x y c hx hy hc
      interval_cases x <;> interval_cases y <;> interval_cases c <;> rfl)

/-- C17: `sharpenCanvas` with amount 1 is the edge-clamped convolution with the kernel
`[0,-1,0; -1,5,-1; 0,-1,0]` of its comment: channel `c < 3` of pixel `(x, y)` is
`clamp(kernelConvolution, 0, 255)`, an integer, and the convolution is
`5 * v - up - down - left - right`. -/
theorem sharpenCanvas_amount_one (ctx : ImageData) (w h : Nat) (x y c : Nat)
    (hlen : ctx.data.length = w * h * 4) (hx : x < w) (hy : y < h) (hc : c < 3) :
    (sharpenCanvas ctx w h 1).data[(y * w + x) * 4 + c]? =
        some (max 0 (min 255 (kernelConvolution ctx.data w h x y c))).toNat ∧
      kernelConvolution ctx.data w h x y c =
        5 * (chan ctx.data w x y c : Int) - chan ctx.data w x (y - 1) c
          - chan ctx.data w x (min (h - 1) (y + 1)) c - chan ctx.data w (x - 1) y c
          - chan ctx.data w (min (w - 1) (x + 1)) y c := by
  refine ⟨?_, kernelConvolution_eq ctx.data w h x y c hx hy⟩
  rw [sharpenCanvas_point ctx w h 1 x y c hlen hx hy hc,
    sharpenByte_one ctx.data w h x y c hx hy hc hlen]

/-- Witness of C17: the red channel of pixel `(0, 1)` of a 2 x 2 buffer. -/
theorem sharpenCanvas_amount_one_witness :
    (sharpenCanvas ⟨2, 2, [100, 10, 100, 255, 100, 100, 100, 255, 100, 100, 60, 64, 1, 2, 3, 4]⟩
        2 2 1).data[(1 * 2 + 0) * 4 + 0]? =
      some (max 0 (min 255 (kernelConvolution
        [100, 10, 100, 255, 100, 100, 100, 255, 100, 100, 60, 64, 1, 2, 3, 4] 2 2 0 1 0))).toNat :=
  (sharpenCanvas_amount_one
    ⟨2, 2, [100, 10, 100, 255, 100, 100, 100, 255, 100, 100, 60, 64, 1, 2, 3, 4]⟩ 2 2
    0 1 0 (by decide) (by decide) (by decide) (by decide)).1

/-! ## The claims: quantizeImage -/

/-- C1: for every buffer, every `k ≥ 1` and every random source, `quantizeImage` returns a
buffer whose pixels with alpha at least 128 carry at most `k` distinct (R,G,B) triples. -/
theorem quantizeImage_distinct_colors (rnd : RandomSource) (pos : Nat) (img : ImageData)
    (k : Int) (hk : 1 ≤ k) :
    ∃ out pos', quantizeImage rnd pos img k = .ok (out, pos') ∧
      (opaqueColors out.data).toFinset.card ≤ k.toNat := by
  rcases quantizeImage_ok rnd pos img k hk with ⟨h0, h⟩ | ⟨_, cs, pos', _, h2, h3, h4⟩
  · refine ⟨img, pos, h, ?_⟩
    rw [opaqueColors_eq_nil_of_collect _ h0]
    simp
  · refine ⟨_, pos', h4, ?_⟩
    rw [← h2]
    exact card_le_of_subset_map _ cs (opaqueColors_mapNearest cs h3 img.data)

/-- Witness of C1: a 3-pixel buffer and `k = 2`. -/
theorem quantizeImage_distinct_colors_witness :
    ∃ out pos', quantizeImage rndZero 0
        ⟨3, 1, [0, 0, 0, 255, 10, 10, 10, 255, 100, 100, 100, 200]⟩ 2 = .ok (out, pos') ∧
      (opaqueColors out.data).toFinset.card ≤ (2 : Int).toNat :=
  quantizeImage_distinct_colors rndZero 0
    ⟨3, 1, [0, 0, 0, 255, 10, 10, 10, 255, 100, 100, 100, 200]⟩ 2 (by decide)

/-- C2: for `k ≥ 1` `quantizeImage` returns, and whenever it returns (for any `k`) every
pixel whose alpha is below 128 has its four channels as in the input and every pixel
whose alpha is at least 128 keeps its alpha. -/
theorem quantizeImage_frame (rnd : RandomSource) (pos : Nat) (img : ImageData) (k : Int) :
    (1 ≤ k → ∃ out pos', quantizeImage rnd pos img k = .ok (out, pos')) ∧
    ∀ out pos', quantizeImage rnd pos img k = .ok (out, pos') →
      ∀ i r g b a, pixelAt img.data i = some (r, g, b, a) →
        (a < 128 → pixelAt out.data i = some (r, g, b, a)) ∧
        (128 ≤ a → ∃ r' g' b', pixelAt out.data i = some (r', g', b', a)) := by
  constructor
  · intro hk
    rcases quantizeImage_ok rnd pos img k hk with ⟨_, h⟩ | ⟨_, cs, pos', _, _, _, h4⟩
    · exact ⟨_, _, h⟩
    · exact ⟨_, _, h4⟩
  · intro out pos' h i r g b a hp
    rcases quantizeImage_cases rnd pos img k out pos' h with ⟨_, h1, _⟩ | ⟨_, _, cs, _, _, h3, h4⟩
    · subst h1
      exact ⟨fun _ => hp, fun _ => ⟨r, g, b, hp⟩⟩
    · subst h4
      obtain ⟨g1, g2⟩ := mapNearest_pixelAt cs h3 img.data i r g b a hp
      refine ⟨g1, fun ha => ?_⟩
      obtain ⟨c, _, hc⟩ := g2 ha
      exact ⟨_, _, _, hc⟩

/-- Counterexample to C10: with `k = 0` and a buffer whose only pixel has alpha 0,
`quantizeImage` does not fail: it returns the buffer. -/
theorem quantizeImage_zero_k_returns :
    quantizeImage rndZero 0 ⟨1, 1, [10, 20, 30, 0]⟩ 0 = .ok (⟨1, 1, [10, 20, 30, 0]⟩, 0) ∧
      ¬ ∃ e, quantizeImage rndZero 0 ⟨1, 1, [10, 20, 30, 0]⟩ 0 = .error e := by
  have h : quantizeImage rndZero 0 ⟨1, 1, [10, 20, 30, 0]⟩ 0
      = .ok (⟨1, 1, [10, 20, 30, 0]⟩, 0) :=
    quantizeImage_no_sample rndZero 0 ⟨1, 1, [10, 20, 30, 0]⟩ 0 (by simp [collectPixels])
  refine ⟨h, ?_⟩
  rintro ⟨e, he⟩
  rw [h] at he
  exact absurd he (by simp)

/-- C10 as amended: for `k < 1`, `quantizeImage` throws when the buffer has a pixel of
alpha at least 128 (a `RangeError` from `new Array(k)` for negative `k`, a `TypeError`
from the missing accumulator for `k = 0`), and returns the input unchanged, drawing
nothing, when it has none. -/
theorem quantizeImage_small_k (rnd : RandomSource) (pos : Nat) (img : ImageData) (k : Int)
    (hk : k < 1) :
    (collectPixels img.data ≠ [] →
      quantizeImage rnd pos img k =
        .error (if k < 0 then JsError.rangeError else JsError.typeError)) ∧
    (collectPixels img.data = [] → quantizeImage rnd pos img k = .ok (img, pos)) :=
  ⟨fun hpx => quantizeImage_error rnd pos img k hpx hk,
    fun hpx => quantizeImage_no_sample rnd pos img k hpx⟩

/-- Witness of the amended C10: `k = 0` on a buffer with one pixel of alpha 255. -/
theorem quantizeImage_small_k_witness :
    quantizeImage rndZero 0 ⟨1, 1, [10, 20, 30, 255]⟩ 0 = .error JsError.typeError :=
  (quantizeImage_small_k rndZero 0 ⟨1, 1, [10, 20, 30, 255]⟩ 0 (by decide)).1
    (by simp [collectPixels])

/-- C11: when no pixel has alpha at least 128, `quantizeImage` returns the input buffer
itself, for every `k` and every random source, with the position of the next draw
unchanged (nothing is drawn) and without throwing. -/
theorem quantizeImage_no_opaque_pixel (rnd : RandomSource) (pos : Nat) (img : ImageData)
    (k : Int) (h : ∀ i r g b a, pixelAt img.data i = some (r, g, b, a) → a < 128) :
    quantizeImage rnd pos img k = .ok (img, pos) :=
  quantizeImage_no_sample rnd pos img k ((collectPixels_eq_nil_iff img.data).mpr h)

/-- Witness of C11: two pixels of alpha 0 and 127, and `k = -3`. -/
theorem quantizeImage_no_opaque_pixel_witness :
    quantizeImage rndZero 7 ⟨2, 1, [1, 2, 3, 0, 4, 5, 6, 127]⟩ (-3)
      = .ok (⟨2, 1, [1, 2, 3, 0, 4, 5, 6, 127]⟩, 7) :=
  quantizeImage_no_opaque_pixel rndZero 7 ⟨2, 1, [1, 2, 3, 0, 4, 5, 6, 127]⟩ (-3)
    ((collectPixels_eq_nil_iff _).mp (by simp [collectPixels]))

/-- C12: for a well-formed canvas and a detail value of at least 0, `processImage`
leaves on the canvas `quantizeImage` of the buffer sharpened with amount `detail / 100`:
sharpening comes first, and the skipped call at amount 0 is the same as the call. -/
theorem processImage_pipeline (rnd : RandomSource) (pos : Nat) (canvas : ImageData)
    (detail palette : Int) (hwf : canvas.WellFormed) (hd : 0 ≤ detail) :
    processImage rnd pos canvas detail palette =
      quantizeImage rnd pos
        (sharpenCanvas canvas canvas.width canvas.height ((detail : ℚ) / 100)) palette := by
  unfold processImage
  simp only
  by_cases h : (detail : ℚ) / 100 > 0
  · rw [if_pos h]
  · rw [if_neg h]
    have h0 : detail = 0 := by
      by_contra hne
      have hpos : (0 : ℚ) < (detail : ℚ) := by
        have : 0 < detail := lt_of_le_of_ne hd (Ne.symm hne)
        exact_mod_cast this
      exact h (div_pos hpos (by norm_num))
    subst h0
    have hz : ((0 : Int) : ℚ) / 100 = 0 := by norm_num
    rw [hz, sharpenCanvas_zero canvas canvas.width canvas.height hwf.1 hwf.2]

/-- Witness of C12: a 2 x 1 canvas, detail 0 and palette size 2. -/
theorem processImage_pipeline_witness :
    processImage rndZero 0 ⟨2, 1, [10, 200, 30, 255, 0, 255, 7, 64]⟩ 0 2 =
      quantizeImage rndZero 0
        (sharpenCanvas ⟨2, 1, [10, 200, 30, 255, 0, 255, 7, 64]⟩ 2 1 (((0 : Int) : ℚ) / 100)) 2 :=
  processImage_pipeline rndZero 0 ⟨2, 1, [10, 200, 30, 255, 0, 255, 7, 64]⟩ 0 2
    (by decide) (by decide)

/-- C14: for a buffer of `width * height * 4` bytes, `sharpenCanvas` (any amount) and
`quantizeImage` (any `k ≥ 1`, any random source) produce a buffer of the same width,
height and length. -/
theorem transforms_keep_dimensions (rnd : RandomSource) (pos : Nat) (img : ImageData)
    (amount : ℚ) (k : Int) (hlen : img.data.length = img.width * img.height * 4)
    (hk : 1 ≤ k) :
    ((sharpenCanvas img img.width img.height amount).width = img.width ∧
      (sharpenCanvas img img.width img.height amount).height = img.height ∧
      (sharpenCanvas img img.width img.height amount).data.length
        = img.width * img.height * 4) ∧
    ∃ out pos', quantizeImage rnd pos img k = .ok (out, pos') ∧
      out.width = img.width ∧ out.height = img.height ∧
      out.data.length = img.width * img.height * 4 := by
  refine ⟨⟨rfl, rfl, by rw [sharpenCanvas_length, hlen]⟩, ?_⟩
  rcases quantizeImage_ok rnd pos img k hk with ⟨_, h⟩ | ⟨_, cs, pos', _, _, _, h4⟩
  · exact ⟨img, pos, h, rfl, rfl, hlen⟩
  · exact ⟨_, pos', h4, rfl, rfl, by simp only [mapNearest_length, hlen]⟩

/-- Witness of C14: a 2 x 1 buffer, amount 1/2 and `k = 3`. -/
theorem transforms_keep_dimensions_witness :
    ((sharpenCanvas ⟨2, 1, [10, 200, 30, 255, 0, 255, 7, 64]⟩ 2 1 (1 / 2)).width = 2 ∧
      (sharpenCanvas ⟨2, 1, [10, 200, 30, 255, 0, 255, 7, 64]⟩ 2 1 (1 / 2)).height = 1 ∧
      (sharpenCanvas ⟨2, 1, [10, 200, 30, 255, 0, 255, 7, 64]⟩ 2 1 (1 / 2)).data.length
        = 2 * 1 * 4) ∧
    ∃ out pos', quantizeImage rndZero 0 ⟨2, 1, [10, 200, 30, 255, 0, 255, 7, 64]⟩ 3
        = .ok (out, pos') ∧
      out.width = 2 ∧ out.height = 1 ∧ out.data.length = 2 * 1 * 4 :=
  transforms_keep_dimensions rndZero 0 ⟨2, 1, [10, 200, 30, 255, 0, 255, 7, 64]⟩ (1 / 2) 3
    (by decide) (by decide)

/-- C15: for a buffer with at least one pixel of alpha at least 128 and `k ≥ 1`, the
initial centroids are `k` defined samples; each of the 5 iterations turns `k` defined
centroids into `k` defined centroids, each the mean of its non-empty cluster (so the
count it is divided by is not zero) or a sample drawn from the sample list; and
`quantizeImage` returns without throwing. -/
theorem quantizeImage_centroids_defined (rnd : RandomSource) (pos : Nat) (img : ImageData)
    (k : Int) (hpx : collectPixels img.data ≠ []) (hk : 1 ≤ k) :
    ∃ cs0 : List Color,
      initCentroids rnd (collectPixels img.data) k.toNat pos = cs0.map some ∧
      cs0.length = k.toNat ∧ (∀ c ∈ cs0, c ∈ collectPixels img.data) ∧
      (∀ n, n < iterations →
        ∃ (prev : List Color) (pos1 : Nat) (cs : List Color) (pos2 : Nat),
          kmeansLoop rnd (collectPixels img.data) k n (cs0.map some, pos + k.toNat)
            = .ok (prev.map some, pos1) ∧
          kmeansLoop rnd (collectPixels img.data) k (n + 1) (cs0.map some, pos + k.toNat)
            = .ok (cs.map some, pos2) ∧
          prev.length = k.toNat ∧ cs.length = k.toNat ∧
          ∀ j, j < k.toNat →
            (0 < (clusterOf prev (collectPixels img.data) j).length ∧
              cs[j]? = some (meanColor (clusterOf prev (collectPixels img.data) j))) ∨
            ((clusterOf prev (collectPixels img.data) j).length = 0 ∧
              ∃ c ∈ collectPixels img.data, cs[j]? = some c)) ∧
      ∃ out pos', quantizeImage rnd pos img k = .ok (out, pos') := by
  obtain ⟨cs0, h1, h2, h3⟩ := initCentroids_spec rnd _ hpx k.toNat pos
  have hcs0 : cs0 ≠ [] := by
    intro h
    rw [h] at h2
    simp only [List.length_nil] at h2
    omega
  refine ⟨cs0, h1, h2, h3, ?_, ?_⟩
  · intro n _
    obtain ⟨prev, pos1, cs, pos2, g1, g2, g3, g4, g5⟩ := kmeansLoop_step_spec rnd _ hpx k cs0
      h2.symm hcs0 (pos + k.toNat) n
    refine ⟨prev, pos1, cs, pos2, g1, g2, by omega, by omega, ?_⟩
    intro j hj
    rcases g5 j (by omega) with ⟨hne, hm⟩ | ⟨he, q, c, _, _, hc, _, hm⟩
    · exact Or.inl ⟨List.length_pos.mpr hne, hm⟩
    · exact Or.inr ⟨by rw [he]; rfl, c, hc, hm⟩
  · rcases quantizeImage_ok rnd pos img k hk with ⟨h0, _⟩ | ⟨_, cs, pos', _, _, _, h4⟩
    · exact absurd h0 hpx
    · exact ⟨_, pos', h4⟩

/-- Witness of C15: a 3-pixel buffer and `k = 2`. -/
theorem quantizeImage_centroids_defined_witness :
    ∃ cs0 : List Color,
      initCentroids rndZero
          (collectPixels [0, 0, 0, 255, 10, 10, 10, 255, 100, 100, 100, 200]) (2 : Int).toNat 0
        = cs0.map some ∧
      cs0.length = (2 : Int).toNat ∧
      (∀ c ∈ cs0, c ∈ collectPixels [0, 0, 0, 255, 10, 10, 10, 255, 100, 100, 100, 200]) ∧
      (∀ n, n < iterations →
        ∃ (prev : List Color) (pos1 : Nat) (cs : List Color) (pos2 : Nat),
          kmeansLoop rndZero (collectPixels [0, 0, 0, 255, 10, 10, 10, 255, 100, 100, 100, 200])
              2 n (cs0.map some, 0 + (2 : Int).toNat)
            = .ok (prev.map some, pos1) ∧
          kmeansLoop rndZero (collectPixels [0, 0, 0, 255, 10, 10, 10, 255, 100, 100, 100, 200])
              2 (n + 1) (cs0.map some, 0 + (2 : Int).toNat)
            = .ok (cs.map some, pos2) ∧
          prev.length = (2 : Int).toNat ∧ cs.length = (2 : Int).toNat ∧
          ∀ j, j < (2 : Int).toNat →
            (0 < (clusterOf prev
                (collectPixels [0, 0, 0, 255, 10, 10, 10, 255, 100, 100, 100, 200]) j).length ∧
              cs[j]? = some (meanColor (clusterOf prev
                (collectPixels [0, 0, 0, 255, 10, 10, 10, 255, 100, 100, 100, 200]) j))) ∨
            ((clusterOf prev
                (collectPixels [0, 0, 0, 255, 10, 10, 10, 255, 100, 100, 100, 200]) j).length = 0 ∧
              ∃ c ∈ collectPixels [0, 0, 0, 255, 10, 10, 10, 255, 100, 100, 100, 200],
                cs[j]? = some c)) ∧
      ∃ out pos', quantizeImage rndZero 0
        ⟨3, 1, [0, 0, 0, 255, 10, 10, 10, 255, 100, 100, 100, 200]⟩ 2 = .ok (out, pos') :=
  quantizeImage_centroids_defined rndZero 0
    ⟨3, 1, [0, 0, 0, 255, 10, 10, 10, 255, 100, 100, 100, 200]⟩ 2
    (by simp [collectPixels]) (by decide)

/-- C18: for a well-formed buffer with at least one pixel of alpha at least 128 and
`k ≥ 1`, after the initialisation and after each iteration every centroid has each
channel between the minimum and the maximum of that channel over the samples; and every
pixel of alpha at least 128 gets the bytes of a centroid `c` with each channel in that
range and in [0,255] (so the clamp of the store changes nothing), the bytes themselves
lying in the same range. -/
theorem quantizeImage_centroid_range (rnd : RandomSource) (pos : Nat) (img : ImageData)
    (k : Int) (hpx : collectPixels img.data ≠ []) (hk : 1 ≤ k)
    (hbytes : ∀ v ∈ img.data, v ≤ 255) :
    (∀ n, n ≤ iterations → ∃ (cs : List Color) (pos1 : Nat),
      kmeansLoop rnd (collectPixels img.data) k n
          (initCentroids rnd (collectPixels img.data) k.toNat pos, pos + k.toNat)
        = .ok (cs.map some, pos1) ∧
      cs.length = k.toNat ∧
      ∀ c ∈ cs, InBox (minColor (collectPixels img.data)) (maxColor (collectPixels img.data)) c) ∧
    ∃ out pos', quantizeImage rnd pos img k = .ok (out, pos') ∧
      ∀ i r g b a, pixelAt img.data i = some (r, g, b, a) → 128 ≤ a →
        ∃ c : Color,
          InBox (minColor (collectPixels img.data)) (maxColor (collectPixels img.data)) c ∧
          InBox (0, 0, 0) (255, 255, 255) c ∧
          pixelAt out.data i =
            some (toUint8Clamp c.1, toUint8Clamp c.2.1, toUint8Clamp c.2.2, a) ∧
          InBox (minColor (collectPixels img.data)) (maxColor (collectPixels img.data))
            ((toUint8Clamp c.1 : ℚ), (toUint8Clamp c.2.1 : ℚ), (toUint8Clamp c.2.2 : ℚ)) := by
  have hP1 := inBox_of_mem (collectPixels img.data)
  have hP2 : ∀ s : List Color, s ≠ [] → (∀ p ∈ s, p ∈ collectPixels img.data) →
      InBox (minColor (collectPixels img.data)) (maxColor (collectPixels img.data))
        (meanColor s) :=
    fun s hs hsub => inBox_mean _ _ s hs (fun p hp => hP1 p (hsub p hp))
  constructor
  · intro n _
    obtain ⟨cs0, h1, h2, h3⟩ := initCentroids_spec rnd _ hpx k.toNat pos
    have hcs0 : cs0 ≠ [] := by
      intro h
      rw [h] at h2
      simp only [List.length_nil] at h2
      omega
    obtain ⟨cs, pos1, g1, g2, _, g4⟩ := kmeansLoop_inv rnd _ hpx k _ hP1 hP2 n cs0 h2.symm
      hcs0 (fun c hc => hP1 c (h3 c hc)) (pos + k.toNat)
    exact ⟨cs, pos1, by rw [h1]; exact g1, by omega, g4⟩
  · obtain ⟨cs, pos', h1, h2, h3, _, h5⟩ := fitCentroids_inv rnd pos _ hpx k hk _ hP1 hP2
    refine ⟨_, pos', quantizeImage_of_fit rnd pos img k hpx cs pos' h1 h2 h3, ?_⟩
    intro i r g b a hp ha
    obtain ⟨c, hc1, hc2⟩ := (mapNearest_pixelAt cs h3 img.data i r g b a hp).2 ha
    have hbox := h5 c (mem_of_getElem?_eq_some_color hc1)
    obtain ⟨lo, hi, elo, ehi, b1, b2, b3⟩ := minmax_bytes img.data hpx hbytes
    rw [elo, ehi] at hbox ⊢
    obtain ⟨⟨r1, r2⟩, ⟨g1, g2⟩, ⟨c1, c2⟩⟩ := hbox
    dsimp only at r1 r2 g1 g2 c1 c2
    have t1 := toUint8Clamp_bounds c.1 lo.1 hi.1 b1 r1 r2
    have t2 := toUint8Clamp_bounds c.2.1 lo.2.1 hi.2.1 b2 g1 g2
    have t3 := toUint8Clamp_bounds c.2.2 lo.2.2 hi.2.2 b3 c1 c2
    have n1 : (0 : ℚ) ≤ (lo.1 : ℚ) := Nat.cast_nonneg _
    have n2 : (0 : ℚ) ≤ (lo.2.1 : ℚ) := Nat.cast_nonneg _
    have n3 : (0 : ℚ) ≤ (lo.2.2 : ℚ) := Nat.cast_nonneg _
    have m1 : (hi.1 : ℚ) ≤ 255 := by exact_mod_cast b1
    have m2 : (hi.2.1 : ℚ) ≤ 255 := by exact_mod_cast b2
    have m3 : (hi.2.2 : ℚ) ≤ 255 := by exact_mod_cast b3
    refine ⟨c, ⟨⟨r1, r2⟩, ⟨g1, g2⟩, ⟨c1, c2⟩⟩, ?_, hc2, ?_⟩
    · unfold InBox
      dsimp only
      exact ⟨⟨by linarith, by linarith⟩, ⟨by linarith, by linarith⟩,
        ⟨by linarith, by linarith⟩⟩
    · unfold InBox
      dsimp only
      exact ⟨⟨by exact_mod_cast t1.1, by exact_mod_cast t1.2⟩,
        ⟨by exact_mod_cast t2.1, by exact_mod_cast t2.2⟩,
        ⟨by exact_mod_cast t3.1, by exact_mod_cast t3.2⟩⟩

/-- C19: for a buffer of bytes whose pixels of alpha at least 128 all have the same
R, G, B, every `k ≥ 1` and every random source, `quantizeImage` returns the buffer
itself. -/
theorem quantizeImage_uniform_rgb (rnd : RandomSource) (pos : Nat) (img : ImageData)
    (k : Int) (hk : 1 ≤ k) (hbytes : ∀ v ∈ img.data, v ≤ 255)
    (hsame : ∀ i j r g b a r' g' b' a', pixelAt img.data i = some (r, g, b, a) →
      pixelAt img.data j = some (r', g', b', a') → 128 ≤ a → 128 ≤ a' →
      r = r' ∧ g = g' ∧ b = b') :
    ∃ pos', quantizeImage rnd pos img k = .ok (img, pos') := by
  by_cases hpx : collectPixels img.data = []
  · exact ⟨pos, quantizeImage_no_sample rnd pos img k hpx⟩
  · have hex : ∃ i r g b a, pixelAt img.data i = some (r, g, b, a) ∧ 128 ≤ a := by
      by_contra hno
      apply hpx
      rw [collectPixels_eq_nil_iff]
      intro i r g b a hp
      by_contra ha
      exact hno ⟨i, r, g, b, a, hp, by omega⟩
    obtain ⟨i0, R, G, B, A, hp0, hA⟩ := hex
    obtain ⟨mR, mG, mB, _⟩ := pixelAt_mem img.data i0 R G B A hp0
    exact quantizeImage_uniform rnd pos img k hk R G B (hbytes R mR) (hbytes G mG)
      (hbytes B mB) (fun i r g b a hp ha => hsame i i0 r g b a R G B A hp hp0 ha hA)

/-- Counterexample to C9: with `k = 3` on three opaque greys, a first run (draws picking
the three samples) returns the buffer itself, and a second run on that output (every
draw picking the last sample) returns a different buffer. -/
theorem quantizeImage_second_run_changes :
    quantizeImage rndThirds 0 greyImage 3 = .ok (greyImage, 3) ∧
    quantizeImage rndTwoThirds 0 greyImage 3
      = .ok (⟨3, 1, [5, 5, 5, 255, 5, 5, 5, 255, 100, 100, 100, 255]⟩, 9) ∧
    (⟨3, 1, [5, 5, 5, 255, 5, 5, 5, 255, 100, 100, 100, 255]⟩ : ImageData) ≠ greyImage :=
  ⟨grey_first_run, grey_second_run, by decide⟩

/-- C9 as amended: a second run of `quantizeImage` with the same `k ≥ 1` on the output of
a first run returns that output unchanged whenever every colour of its pixels of alpha at
least 128 is among the second run's final centroids; for `k = 1` this is always so. -/
theorem quantizeImage_again (rnd1 rnd2 : RandomSource) (pos1 pos2 : Nat) (img : ImageData)
    (k : Int) (hk : 1 ≤ k) (out1 : ImageData) (p1 : Nat)
    (h1 : quantizeImage rnd1 pos1 img k = .ok (out1, p1)) :
    (∀ (cs : List Color) (p2 : Nat),
      fitCentroids rnd2 pos2 (collectPixels out1.data) k = .ok (cs.map some, p2) →
      (∀ q ∈ collectPixels out1.data, q ∈ cs) →
      ∃ p, quantizeImage rnd2 pos2 out1 k = .ok (out1, p)) ∧
    (k = 1 → ∃ p, quantizeImage rnd2 pos2 out1 k = .ok (out1, p)) := by
  refine ⟨fun cs p2 hfit hmem =>
    quantizeImage_again_fixed rnd1 rnd2 pos1 pos2 img k hk out1 p1 h1 cs p2 hfit hmem, ?_⟩
  intro hk1
  subst hk1
  exact quantizeImage_again_one rnd1 rnd2 pos1 pos2 img out1 p1 h1

/-- Witness of the amended C9: the three greys with `k = 3`; the second run uses the
draws of the first, its final centroids are the three greys, and the buffer is
unchanged. -/
theorem quantizeImage_again_witness :
    ∃ p, quantizeImage rndThirds 0 greyImage 3 = .ok (greyImage, p) :=
  (quantizeImage_again rndThirds rndThirds 0 0 greyImage 3 (by decide) greyImage 3
    grey_first_run).1 greyPixels 3
    (by rw [greyImage_pixels]; exact grey_first_fit)
    (by rw [greyImage_pixels]; exact fun q hq => hq)

/-- Witness of C18: the three greys with `k = 2`. -/
theorem quantizeImage_centroid_range_witness :
    (∀ n, n ≤ iterations → ∃ (cs : List Color) (pos1 : Nat),
      kmeansLoop rndZero (collectPixels greyImage.data) 2 n
          (initCentroids rndZero (collectPixels greyImage.data) (2 : Int).toNat 0,
            0 + (2 : Int).toNat)
        = .ok (cs.map some, pos1) ∧
      cs.length = (2 : Int).toNat ∧
      ∀ c ∈ cs, InBox (minColor (collectPixels greyImage.data))
        (maxColor (collectPixels greyImage.data)) c) ∧
    ∃ out pos', quantizeImage rndZero 0 greyImage 2 = .ok (out, pos') ∧
      ∀ i r g b a, pixelAt greyImage.data i = some (r, g, b, a) → 128 ≤ a →
        ∃ c : Color,
          InBox (minColor (collectPixels greyImage.data))
            (maxColor (collectPixels greyImage.data)) c ∧
          InBox (0, 0, 0) (255, 255, 255) c ∧
          pixelAt out.data i =
            some (toUint8Clamp c.1, toUint8Clamp c.2.1, toUint8Clamp c.2.2, a) ∧
          InBox (minColor (collectPixels greyImage.data))
            (maxColor (collectPixels greyImage.data))
            ((toUint8Clamp c.1 : ℚ), (toUint8Clamp c.2.1 : ℚ), (toUint8Clamp c.2.2 : ℚ)) :=
  quantizeImage_centroid_range rndZero 0 greyImage 2 greyImage_has_sample (by decide)
    greyImage_bytes

/-- Witness of C19: two opaque pixels of colour (7,8,9) and `k = 5`, more than the one
distinct colour. -/
theorem quantizeImage_uniform_rgb_witness :
    ∃ pos', quantizeImage rndZero 0 flatImage 5 = .ok (flatImage, pos') :=
  quantizeImage_uniform_rgb rndZero 0 flatImage 5 (by decide) (by decide)
    (fun i j r g b a r' g' b' a' hp hq ha ha' => by
      obtain ⟨e1, e2, e3⟩ := flatImage_same i r g b a hp ha
      obtain ⟨f1, f2, f3⟩ := flatImage_same j r' g' b' a' hq ha'
      omega)

/-- C8: for the 4 x 1 buffer of opaque pixels (0,0,0), (10,0,0), (250,250,250),
(255,255,255) and `k = 2`, for every random source, the 5 iterations end with the two
centroids (5,0,0) and (252.5,252.5,252.5) in one order or the other, the cluster of the
first holding the two dark samples and the cluster of the second the two light ones; the
first two output pixels get (5,0,0) and the last two (252,252,252), the byte conversion
of 252.5. -/
theorem scenario_converges (rnd : RandomSource) (pos : Nat) :
    ∃ (cs : List Color) (pos' : Nat),
      fitCentroids rnd pos (collectPixels scenarioImage.data) 2 = .ok (cs.map some, pos') ∧
      ((cs = [((5 : ℚ), (0 : ℚ), (0 : ℚ)), (505 / 2, 505 / 2, 505 / 2)] ∧
          clusterOf cs (collectPixels scenarioImage.data) 0 = [(0, 0, 0), (10, 0, 0)] ∧
          clusterOf cs (collectPixels scenarioImage.data) 1
            = [(250, 250, 250), (255, 255, 255)]) ∨
        (cs = [((505 : ℚ) / 2, (505 : ℚ) / 2, (505 : ℚ) / 2), (5, 0, 0)] ∧
          clusterOf cs (collectPixels scenarioImage.data) 1 = [(0, 0, 0), (10, 0, 0)] ∧
          clusterOf cs (collectPixels scenarioImage.data) 0
            = [(250, 250, 250), (255, 255, 255)])) ∧
      quantizeImage rnd pos scenarioImage 2 =
        .ok (⟨4, 1, [5, 0, 0, 255, 5, 0, 0, 255, 252, 252, 252, 255, 252, 252, 252, 255]⟩,
          pos') := by
  obtain ⟨cs, pos', h1, h2⟩ := scenario_fit rnd pos
  have hpx : collectPixels scenarioImage.data ≠ [] := by
    rw [scenarioImage_pixels]
    exact scenarioPixels_ne
  have hlen : cs.length = (2 : Int).toNat := by
    rcases h2 with rfl | rfl <;> rfl
  have hne : cs ≠ [] := by
    rcases h2 with rfl | rfl <;> simp
  have hq := quantizeImage_of_fit rnd pos scenarioImage 2 hpx cs pos'
    (by rw [scenarioImage_pixels]; exact h1) hlen hne
  rw [scenario_map cs h2] at hq
  refine ⟨cs, pos', by rw [scenarioImage_pixels]; exact h1, ?_, hq⟩
  rw [scenarioImage_pixels]
  rcases h2 with rfl | rfl
  · exact Or.inl ⟨rfl, final_splits.1.2.2.1, final_splits.1.2.2.2⟩
  · exact Or.inr ⟨rfl, final_splits.2.2.2.1, final_splits.2.2.2.2⟩

/-- Witness of C2: in `flatImage` with `k = 5`, the pixel (1,2,3) of alpha 10 is returned
with its four bytes unchanged. -/
theorem quantizeImage_frame_witness :
    ∃ out pos', quantizeImage rndZero 0 flatImage 5 = .ok (out, pos') ∧
      pixelAt out.data 1 = some (1, 2, 3, 10) :=
  Exists.elim ((quantizeImage_frame rndZero 0 flatImage 5).1 (by decide)) (fun out h =>
    Exists.elim h (fun pos' h' =>
      ⟨out, pos', h',
        ((quantizeImage_frame rndZero 0 flatImage 5).2 out pos' h' 1 1 2 3 10
          (by simp [pixelAt, flatImage])).1 (by decide)⟩))
end Pixi
